import Mathlib

/-!
# cd-gun: monitoring engine

A shallow embedding of the change detector (`internal/monitor/git_helper.go`), the
repository poller (`internal/monitor/monitor.go`), the state store (`internal/state`),
the configuration (`internal/config`), the action runner (`internal/executor`) and the
application with its control loop (`internal/app`), with the properties of the
specification that concern them.

Conventions of the embedding:

* a Go `string` is a list of characters (`Str`); the empty string is `[]`;
* a Go `error` is `Option Str` (`none` is `nil`), a `(value, error)` pair is `Except`;
* a `time.Time` is a natural number, the zero time is `0`, and every call of
  `time.Now()` reads a value handed in by the caller;
* a subprocess, file-system or library call is an oracle of the environment (`GitEnv`,
  `Disk`, `JsonCodec`, `ConfigEnv`, `ExecEnv`);
* a run-time panic is an outcome of its own (`Outcome.panicked`, `Call.panicked`, or
  `none` where a function has nothing else to hand back);
* log calls have no effect on the state and are left out.
-/

namespace CdGun

/-- Go `string`: a sequence of characters. -/
abbrev Str := List Char

/-- Go `time.Time`, as an instant; `0` is the zero value. -/
abbrev Time := Nat

/-! ## `strings` helpers used by the sources -/

/-- Go `strings.HasPrefix(s, prefix)`. -/
def HasPrefix (s pre : Str) : Bool := pre.isPrefixOf s

/-- Go `strings.HasSuffix(s, suffix)`. -/
def HasSuffix (s suf : Str) : Bool := suf.isSuffixOf s

/-- Go `strings.TrimSuffix(s, suffix)`: `s` without the trailing `suffix`, or `s` itself
when it does not end in `suffix`. -/
def TrimSuffix (s suf : Str) : Str :=
  if HasSuffix s suf then s.take (s.length - suf.length) else s

/-- Go `unicode.IsSpace`: the white space that `strings.TrimSpace` removes. -/
def isSpace (c : Char) : Bool :=
  let n := c.toNat
  (9 ≤ n && n ≤ 13) || n == 32 || n == 0x85 || n == 0xA0 || n == 0x1680 ||
    (0x2000 ≤ n && n ≤ 0x200A) || n == 0x2028 || n == 0x2029 || n == 0x202F ||
    n == 0x205F || n == 0x3000

/-- Go `strings.TrimSpace(s)`: `s` without leading and trailing white space. -/
def TrimSpace (s : Str) : Str :=
  ((s.dropWhile isSpace).reverse.dropWhile isSpace).reverse

/-- Go `strings.Split(s, sep)` for a separator of one character: the pieces of `s`
between the separators; a string without separator, the empty one included, gives
the one-element list of itself. -/
def Split : Str → Char → List Str
  | [], _ => [[]]
  | c :: cs, sep =>
    if c = sep then [] :: Split cs sep
    else
      match Split cs sep with
      | [] => [[c]]
      | piece :: pieces => (c :: piece) :: pieces

/-- Go `filepath.Join(dir, name)` for a directory and a file name that need no cleaning. -/
def filepathJoin (dir name : Str) : Str :=
  if dir = [] then name else dir ++ '/' :: name

/-! ## `internal/config/types.go` -/

/-- Source `config.Auth`. -/
structure Auth where
  Type_ : Str := []
  Credentials : Str := []
  Username : Str := []
  Password : Str := []
deriving DecidableEq, Repr

/-- Source `config.Action`. -/
structure Action where
  Type_ : Str := []
  Script : Str := []
  URL : Str := []
  Handler : Str := []
  Timeout : Str := []
  parsedTimeout : Nat := 0
  Parallel : Bool := false
  Env : List (Str × Str) := []
deriving DecidableEq, Repr

/-- Source `config.Repository`. -/
structure Repository where
  Name : Str := []
  URL : Str := []
  Branch : Str := []
  Auth : Auth := {}
  WatchPaths : List Str := []
  PollInterval : Str := []
  parsedInterval : Nat := 0
  Action : Action := {}
deriving DecidableEq, Repr

/-- Source `config.AgentConfig`. -/
structure AgentConfig where
  Name : Str := []
  LogLevel : Str := []
  LogFile : Str := []
  StateDir : Str := []
  CacheDir : Str := []
  PollInterval : Str := []
  parsedInterval : Nat := 0
deriving DecidableEq, Repr

/-- Source `config.Config`. -/
structure Config where
  Agent : AgentConfig := {}
  Repositories : List Repository := []
  IncludeRepositories : List Str := []
deriving DecidableEq, Repr

/-! ## `internal/config/config.go` -/

/-- Source `config.Manager`. -/
structure Manager where
  config : Config
  configPath : Str := []
  lastModTime : Time := 0
deriving DecidableEq, Repr

/-- The error `fmt.Errorf("repository[%d]: ...", i)` of `validate`. -/
def repositoryError (i : Nat) (what : Str) : Str :=
  "repository[".toList ++ (Nat.repr i).toList ++ "]: ".toList ++ what

/-- One turn of the loop of `validate`, on the repository at index `i`: the repository as
the turn leaves it in the list, and the error when the turn returns one. The tests read
the copy `repo` the turn started with; the defaults are written to the list. -/
def validateRepository (agentPollInterval : Str) (i : Nat) (repo : Repository) :
    Repository × Option Str :=
  if repo.Name = [] then (repo, some (repositoryError i "name is required".toList))
  else if repo.URL = [] then (repo, some (repositoryError i "url is required".toList))
  else
    let r₁ := if repo.Branch = [] then { repo with Branch := "main".toList } else repo
    let r₂ :=
      if repo.Auth.Type_ = [] then { r₁ with Auth := { r₁.Auth with Type_ := "none".toList } }
      else r₁
    if repo.WatchPaths.length = 0 then
      (r₂, some (repositoryError i "watch_paths is required".toList))
    else
      let r₃ :=
        if repo.PollInterval = [] then { r₂ with PollInterval := agentPollInterval } else r₂
      if repo.Action.Type_ = [] then
        (r₃, some (repositoryError i "action.type is required".toList))
      else if repo.Action.Type_ = "shell".toList ∧ repo.Action.Script = [] then
        (r₃, some (repositoryError i "action.script is required for shell action".toList))
      else if repo.Action.Type_ = "webhook".toList ∧ repo.Action.URL = [] then
        (r₃, some (repositoryError i "action.url is required for webhook action".toList))
      else
        let r₄ :=
          if repo.Action.Timeout = [] then
            { r₃ with Action := { r₃.Action with Timeout := "10m".toList } }
          else r₃
        (r₄, none)

/-- The loop `for i, repo := range cfg.Repositories` of `validate`, from index `i` on: the
list as the loop leaves it, and the error of the turn that returned, if one did. -/
def validateRepositories (agentPollInterval : Str) : Nat → List Repository →
    List Repository × Option Str
  | _, [] => ([], none)
  | i, repo :: rest =>
    match validateRepository agentPollInterval i repo with
    | (repo', some err) => (repo' :: rest, some err)
    | (repo', none) =>
      let looped := validateRepositories agentPollInterval (i + 1) rest
      (repo' :: looped.1, looped.2)

/-- The defaults `validate` gives the agent settings. -/
def agentDefaults (agent : AgentConfig) : AgentConfig :=
  let agent := if agent.Name = [] then { agent with Name := "cd-gun-agent".toList } else agent
  let agent := if agent.LogLevel = [] then { agent with LogLevel := "info".toList } else agent
  let agent :=
    if agent.StateDir = [] then { agent with StateDir := "/var/lib/cd-gun".toList } else agent
  let agent :=
    if agent.CacheDir = [] then { agent with CacheDir := "/var/lib/cd-gun/repos".toList }
    else agent
  if agent.PollInterval = [] then { agent with PollInterval := "5m".toList } else agent

/-- Source `Manager.validate`: checks that the configuration is valid. The configuration
is changed in place, so the result is the configuration as `validate` leaves it, with the
error it returns. -/
def Manager.validate (cfg : Config) : Config × Option Str :=
  let cfg := { cfg with Agent := agentDefaults cfg.Agent }
  if cfg.Repositories.length = 0 then
    (cfg, some "at least one repository must be configured".toList)
  else
    let looped := validateRepositories cfg.Agent.PollInterval 0 cfg.Repositories
    ({ cfg with Repositories := looped.1 }, looped.2)

/-- What the configuration files and the libraries answer to `Manager.Load`: the file read
and parsed by `yaml.Unmarshal`, the repositories `loadRepositoriesFromPattern` finds for an
include pattern, `time.ParseDuration`, and the modification time `os.Stat` reports. -/
structure ConfigEnv where
  parsed : Except Str Config
  loadRepositoriesFromPattern : Str → Except Str (List Repository)
  parseDuration : Str → Except Str Nat
  modTime : Except Str Time

/-- The loop over the include patterns in `Manager.Load`. -/
def loadIncludes (env : ConfigEnv) : List Str → List Repository → Except Str (List Repository)
  | [], repos => .ok repos
  | pattern :: rest, repos =>
    match env.loadRepositoriesFromPattern pattern with
    | .error err =>
      .error ("failed to load repositories from pattern '".toList ++ pattern ++ "': ".toList ++ err)
    | .ok found => loadIncludes env rest (repos ++ found)

/-- The loop over the repositories in `parseIntervals`, from index `i` on. -/
def parseRepositoryIntervals (env : ConfigEnv) : Nat → List Repository →
    Except Str (List Repository)
  | _, [] => .ok []
  | i, repo :: rest =>
    match env.parseDuration repo.PollInterval with
    | .error err =>
      .error ("invalid repositories[".toList ++ (Nat.repr i).toList ++
        "].poll_interval: ".toList ++ err)
    | .ok d =>
      match env.parseDuration repo.Action.Timeout with
      | .error err =>
        .error ("invalid repositories[".toList ++ (Nat.repr i).toList ++
          "].action.timeout: ".toList ++ err)
      | .ok t =>
        match parseRepositoryIntervals env (i + 1) rest with
        | .error err => .error err
        | .ok rest' =>
          .ok ({ repo with parsedInterval := d,
                           Action := { repo.Action with parsedTimeout := t } } :: rest')

/-- Source `Manager.parseIntervals`: parses all interval strings. -/
def Manager.parseIntervals (env : ConfigEnv) (cfg : Config) : Except Str Config :=
  match env.parseDuration cfg.Agent.PollInterval with
  | .error err => .error ("invalid agent.poll_interval: ".toList ++ err)
  | .ok d =>
    match parseRepositoryIntervals env 0 cfg.Repositories with
    | .error err => .error err
    | .ok repos =>
      .ok { cfg with Agent := { cfg.Agent with parsedInterval := d }, Repositories := repos }

/-- Source `Manager.Load`: reads and parses the configuration file; the error, and the
manager after it. -/
def Manager.Load (env : ConfigEnv) (m : Manager) : Option Str × Manager :=
  match env.parsed with
  | .error err => (some err, m)
  | .ok cfg =>
    -- Load repositories from include patterns
    match loadIncludes env cfg.IncludeRepositories cfg.Repositories with
    | .error err => (some err, m)
    | .ok repos =>
      let cfg := { cfg with Repositories := repos }
      match Manager.validate cfg with
      | (_, some err) => (some ("config validation failed: ".toList ++ err), m)
      | (cfg, none) =>
        match Manager.parseIntervals env cfg with
        | .error err => (some ("failed to parse intervals: ".toList ++ err), m)
        | .ok cfg =>
          let m := { m with config := cfg }
          -- Update last modified time
          match env.modTime with
          | .ok t => (none, { m with lastModTime := t })
          | .error _ => (none, m)

/-- Source `NewManager`. Until `Load` sets it, the configuration of the new manager is the
zero `Config`, standing for the nil pointer. -/
def NewManager (env : ConfigEnv) (configPath : Str) : Except Str Manager :=
  let m : Manager := { config := {}, configPath := configPath }
  match m.Load env with
  | (some err, _) => .error ("failed to load config: ".toList ++ err)
  | (none, m) => .ok m

/-- Source `Manager.GetConfig`. -/
def Manager.GetConfig (m : Manager) : Config := m.config

/-- Source `Manager.IsModified`, with the modification time `os.Stat` reports now. -/
def Manager.IsModified (env : ConfigEnv) (m : Manager) : Bool :=
  match env.modTime with
  | .error _ => false
  | .ok t => decide (m.lastModTime < t)

/-- Source `Manager.GetRepositoryLocalPath`. -/
def Manager.GetRepositoryLocalPath (m : Manager) (repoName : Str) : Str :=
  filepathJoin m.config.Agent.CacheDir repoName

/-- Source `Manager.GetActionTimeout`. -/
def Manager.GetActionTimeout (_m : Manager) (action : Action) : Nat := action.parsedTimeout

/-! ## `internal/state/types.go` and `internal/state/store.go` -/

/-- Source `state.RepositoryState`; the defaults are the Go zero values. -/
structure RepositoryState where
  Name : Str := []
  LastFetch : Time := 0
  CurrentHash : Str := []
  LastActionExecuted : Time := 0
  LastActionStatus : Str := []
  LastError : Str := []
deriving DecidableEq, Repr

/-- Go `map[string]RepositoryState` once made: the entries, one per key. -/
abbrev RepoMap := List (Str × RepositoryState)

/-- Go map read `m[k]`: the entry under the key, if any. -/
def RepoMap.lookup (m : RepoMap) (k : Str) : Option RepositoryState :=
  match m with
  | [] => none
  | (k', v) :: rest => if k' = k then some v else RepoMap.lookup rest k

/-- Go map write `m[k] = v`: replaces the entry under the key or adds one. -/
def RepoMap.store (m : RepoMap) (k : Str) (v : RepositoryState) : RepoMap :=
  match m with
  | [] => [(k, v)]
  | (k', v') :: rest => if k' = k then (k, v) :: rest else (k', v') :: RepoMap.store rest k v

/-- Source `state.State`; `Repositories = none` is the nil map. -/
structure State where
  Version : Str := []
  LastUpdated : Time := 0
  Repositories : Option RepoMap := none
deriving DecidableEq, Repr

/-- Source `NewState`, at the clock reading `now`. -/
def NewState (now : Time) : State :=
  { Version := "1.0".toList, LastUpdated := now, Repositories := some [] }

/-- Source `State.UpdateRepository`, at the clock reading `now`; `none` is the run-time
panic of a write to a nil map. -/
def State.UpdateRepository (s : State) (name : Str) (state : RepositoryState) (now : Time) :
    Option State :=
  let state := { state with Name := name }
  match s.Repositories with
  | none => none
  | some m => some { s with Repositories := some (m.store name state), LastUpdated := now }

/-- Source `State.GetRepository`: the entry and whether it exists; reading a nil map
finds nothing. -/
def State.GetRepository (s : State) (name : Str) : RepositoryState × Bool :=
  match s.Repositories with
  | none => ({}, false)
  | some m =>
    match m.lookup name with
    | some rs => (rs, true)
    | none => ({}, false)

/-- Go `*time.Timer` of the debounced save: whether its callback is still to run. -/
structure Timer where
  pending : Bool
deriving DecidableEq, Repr

/-- Source `state.Store` (the lock left out: the embedding is sequential). -/
structure Store where
  state : State
  filePath : Str := []
  autoSave : Bool := true
  saveTimer : Option Timer := none
deriving DecidableEq, Repr

/-- Source `Store.SaveAsync`: cancels a pending save and schedules one. -/
def Store.SaveAsync (s : Store) : Store :=
  if !s.autoSave then s
  else { s with saveTimer := some { pending := true } }

/-- Source `Store.UpdateRepository`; `none` is the panic of `State.UpdateRepository`. -/
def Store.UpdateRepository (s : Store) (name : Str) (state : RepositoryState) (now : Time) :
    Option Store :=
  match s.state.UpdateRepository name state now with
  | none => none
  | some st => some (Store.SaveAsync { s with state := st })

/-- Source `Store.GetRepository`. -/
def Store.GetRepository (s : Store) (name : Str) : RepositoryState × Bool :=
  s.state.GetRepository name

/-- Go `encoding/json` on a `State`, taken as given: `json.MarshalIndent(state, "", "  ")`
and `json.Unmarshal(data, &state)`. -/
structure JsonCodec where
  marshalIndent : State → Except Str Str
  unmarshal : Str → Except Str State

/-- The file system as the state store sees it: the files with their contents, and what
`os.MkdirAll` and `os.WriteFile` answer. -/
structure Disk where
  files : List (Str × Str) := []
  mkdirAllErr : Option Str := none
  writeErr : Option Str := none
deriving DecidableEq, Repr

/-- Go `os.ReadFile(path)`: the content of the file, or an error when there is none. -/
def Disk.ReadFile (d : Disk) (path : Str) : Except Str Str :=
  match d.files.lookup path with
  | some data => .ok data
  | none => .error ("open ".toList ++ path ++ ": no such file or directory".toList)

/-- Go `os.WriteFile(path, data, 0644)`: on success the file holds `data`. A failed write
is taken to leave the files as they were. -/
def Disk.WriteFile (d : Disk) (path data : Str) : Option Str × Disk :=
  match d.writeErr with
  | some err => (some err, d)
  | none => (none, { d with files := (path, data) :: d.files.filter (fun f => f.1 ≠ path) })

/-- Go `(*time.Timer).Stop`: the callback will not run any more. -/
def Timer.Stop (_t : Timer) : Timer := { pending := false }

/-- Source `Store.Load`: reads the state from disk; the error, and the store after it. -/
def Store.Load (codec : JsonCodec) (disk : Disk) (s : Store) : Option Str × Store :=
  match disk.ReadFile s.filePath with
  | .error err => (some ("failed to read state file: ".toList ++ err), s)
  | .ok data =>
    match codec.unmarshal data with
    | .error err => (some ("failed to parse state file: ".toList ++ err), s)
    | .ok state => (none, { s with state := state })

/-- Source `Store.Save`: writes the state to disk; the error, and the disk after it. -/
def Store.Save (codec : JsonCodec) (disk : Disk) (s : Store) : Option Str × Disk :=
  match codec.marshalIndent s.state with
  | .error err => (some ("failed to marshal state: ".toList ++ err), disk)
  | .ok data =>
    match disk.WriteFile s.filePath data with
    | (some err, disk') => (some ("failed to write state file: ".toList ++ err), disk')
    | (none, disk') => (none, disk')

/-- The callback `SaveAsync` schedules, when its timer fires: a save whose error is
dropped. -/
def Store.saveTimerFires (codec : JsonCodec) (disk : Disk) (s : Store) : Store × Disk :=
  match s.saveTimer with
  | some { pending := true } =>
    ({ s with saveTimer := some { pending := false } }, (s.Save codec disk).2)
  | _ => (s, disk)

/-- What `Close` hands back: its error, and the store and the disk after it. -/
structure CloseResult where
  err : Option Str
  store : Store
  disk : Disk
deriving DecidableEq, Repr

/-- Source `Store.Close`: closes the state store and ensures final save. -/
def Store.Close (codec : JsonCodec) (disk : Disk) (s : Store) : CloseResult :=
  let s := match s.saveTimer with
    | some t => { s with saveTimer := some t.Stop }
    | none => s
  let saved := s.Save codec disk
  { err := saved.1, store := s, disk := saved.2 }

/-- Source `NewStore`, at the clock reading `now`. Until `Load` or `NewState` sets it, the
state of the new store is the zero `State`, standing for the nil pointer. -/
def NewStore (codec : JsonCodec) (disk : Disk) (now : Time) (stateDir : Str) :
    Except Str Store :=
  let statePath := filepathJoin stateDir "state.json".toList
  -- Ensure state directory exists
  match disk.mkdirAllErr with
  | some err => .error ("failed to create state directory: ".toList ++ err)
  | none =>
    let store : Store := { state := {}, filePath := statePath, autoSave := true }
    -- Try to load existing state
    match store.Load codec disk with
    | (some _, store) =>
      -- If file doesn't exist, create new state
      .ok { store with state := NewState now }
    | (none, store) => .ok store

/-! ## `internal/monitor/git_helper.go` -/

/-- Result of `exec.Cmd.CombinedOutput` (or `Run`): the output and the error. -/
structure CmdResult where
  output : Str := []
  err : Option Str := none
deriving DecidableEq, Repr

/-- What the file system and the `git` subprocesses answer during one check cycle. -/
structure GitEnv where
  /-- `os.Stat(repoPath)` -/
  stat : Option Str
  /-- `git rev-parse --git-dir` -/
  revParseGitDir : Option Str
  /-- `os.MkdirAll(parentDir)` -/
  mkdirAll : Option Str
  /-- `git clone [--branch b] url repoPath` -/
  clone : CmdResult
  /-- `git fetch origin branch` -/
  fetch : CmdResult
  /-- `git rev-parse origin/branch`, by branch -/
  revParse : Str → CmdResult
  /-- `git diff --name-only old..new`, by the two commits -/
  diff : Str → Str → CmdResult

/-- Source `GitHelper`: the working copy it runs `git` in, seen through its answers. -/
structure GitHelper where
  env : GitEnv

/-- Source `NewGitHelper`. -/
def NewGitHelper (env : GitEnv) : GitHelper := { env := env }

/-- Source `GitHelper.clone`. -/
def GitHelper.clone (g : GitHelper) (_repo : Repository) : Option Str :=
  match g.env.mkdirAll with
  | some err => some ("failed to create directory: ".toList ++ err)
  | none =>
    match g.env.clone.err with
    | some err =>
      some ("git clone failed: ".toList ++ err ++ ", output: ".toList ++ g.env.clone.output)
    | none => none

/-- Source `GitHelper.verifyRepository`. The helper carries no path here, so the error
text leaves out the "at <repoPath>" of the source. -/
def GitHelper.verifyRepository (g : GitHelper) (_repo : Repository) : Option Str :=
  match g.env.revParseGitDir with
  | some err => some ("invalid git repository: ".toList ++ err)
  | none => none

/-- Source `GitHelper.EnsureRepository`. -/
def GitHelper.EnsureRepository (g : GitHelper) (repo : Repository) : Option Str :=
  -- Check if repo already exists
  if g.env.stat = none then
    -- Repository exists, verify it
    g.verifyRepository repo
  else
    -- Clone the repository
    g.clone repo

/-- Source `GitHelper.Fetch`. -/
def GitHelper.Fetch (g : GitHelper) (_repo : Repository) : Option Str :=
  match g.env.fetch.err with
  | some err =>
    some ("git fetch failed: ".toList ++ err ++ ", output: ".toList ++ g.env.fetch.output)
  | none => none

/-- Source `GitHelper.GetHash`. -/
def GitHelper.GetHash (g : GitHelper) (branch : Str) : Except Str Str :=
  let r := g.env.revParse branch
  match r.err with
  | some err =>
    .error ("failed to get hash for branch '".toList ++ branch ++ "': ".toList ++ err)
  | none => .ok (TrimSpace r.output)

/-- Source `matchesPath`: checks if a file path matches a watch pattern. -/
def matchesPath (filePath pattern : Str) : Bool :=
  -- Remove trailing slash from pattern
  let pattern := TrimSuffix pattern ['/']
  -- Exact match
  if filePath = pattern then true
  -- Pattern is a directory
  else if HasPrefix filePath (pattern ++ ['/']) then true
  -- Simple wildcard support
  else if HasSuffix pattern ['/', '*'] then
    let dir := TrimSuffix pattern ['/', '*']
    if HasPrefix filePath (dir ++ ['/']) then true else false
  else false

/-- The watch pattern as the specification reads it: one trailing `/` is ignored. -/
def patternSansSlash (p : Str) : Str :=
  match p.getLast? with
  | some '/' => p.dropLast
  | _ => p

/-- The path `f` lies under the directory `d`: it starts with `d` followed by `/`. -/
def liesUnder (f d : Str) : Prop := ∃ rest : Str, f = d ++ '/' :: rest

/-- The inner loop of `GetChangedFiles`: whether `changed` matches a watch pattern,
leaving the loop at the first match. -/
def matchesAnyWatch (changed : Str) : List Str → Bool
  | [] => false
  | watch :: rest => if matchesPath changed watch then true else matchesAnyWatch changed rest

/-- The outer loop of `GetChangedFiles`: appends to `filtered` each changed file that
matches a watch pattern. -/
def filterLoop (watchPaths : List Str) : List Str → List Str → List Str
  | [], filtered => filtered
  | changed :: rest, filtered =>
    if matchesAnyWatch changed watchPaths then filterLoop watchPaths rest (filtered ++ [changed])
    else filterLoop watchPaths rest filtered

/-- The changed files `GetChangedFiles` reads from the output of `git diff`. -/
def changedFilesOf (output : Str) : List Str := Split (TrimSpace output) '\n'

/-- Source `GitHelper.GetChangedFiles`: files that changed between two commits. -/
def GitHelper.GetChangedFiles (g : GitHelper) (oldHash newHash : Str) (watchPaths : List Str) :
    Except Str (List Str) :=
  if oldHash = [] then
    -- No previous state, assume all watched files
    .ok watchPaths
  else
    -- Get list of changed files
    let r := g.env.diff oldHash newHash
    match r.err with
    | some err => .error ("failed to get diff: ".toList ++ err)
    | none =>
      let changedFiles := changedFilesOf r.output
      -- Filter by watch paths
      .ok (filterLoop watchPaths changedFiles [])

/-! ## `internal/monitor/monitor.go` -/

/-- Source `ChangeEvent`. -/
structure ChangeEvent where
  RepositoryName : Str := []
  Files : List Str := []
  OldHash : Str := []
  NewHash : Str := []
  DetectedAt : Time := 0
deriving DecidableEq, Repr

/-- Go buffered channel `make(chan α, cap)`: its capacity and the values waiting. -/
structure Chan (α : Type) where
  cap : Nat
  buf : List α
deriving DecidableEq, Repr

/-- Go `make(chan α, cap)`. -/
def Chan.make {α : Type} (cap : Nat) : Chan α := { cap := cap, buf := [] }

/-- Go `select { case c <- v: ... default: ... }`: the send when the buffer has room,
with whether it took place. -/
def Chan.trySend {α : Type} (c : Chan α) (v : α) : Chan α × Bool :=
  if c.buf.length < c.cap then ({ c with buf := c.buf ++ [v] }, true) else (c, false)

/-- Go receive `<-c` when a value waits; `none` when the receiver would wait. -/
def Chan.tryRecv {α : Type} (c : Chan α) : Option (α × Chan α) :=
  match c.buf with
  | [] => none
  | v :: rest => some (v, { c with buf := rest })

/-- Source `Monitor`: the fields a check cycle reads or writes. The state store is
shared with the other monitors and is passed next to the monitor. -/
structure Monitor where
  repo : Repository
  eventChan : Chan ChangeEvent
  forceChan : Chan Unit
deriving DecidableEq, Repr

/-- Source `NewMonitor` (its error result is always nil). -/
def NewMonitor (repo : Repository) : Monitor :=
  { repo := repo, eventChan := Chan.make 1, forceChan := Chan.make 1 }

/-- Source `Monitor.ForceCheck`: triggers an immediate check of the repository. -/
def Monitor.ForceCheck (m : Monitor) : Monitor :=
  { m with forceChan := (m.forceChan.trySend ()).1 }

/-- The `case <-m.forceChan` of `Monitor.Start`: the poller takes one pending forced
check; `none` when none is pending. -/
def Monitor.takeForce (m : Monitor) : Option Monitor :=
  match m.forceChan.tryRecv with
  | none => none
  | some (_, c) => some { m with forceChan := c }

/-- The `case` over a monitor's event channel in `App.eventLoop`: the control loop
takes the pending event. -/
def Monitor.takeEvent (m : Monitor) : Option (ChangeEvent × Monitor) :=
  match m.eventChan.tryRecv with
  | none => none
  | some (e, c) => some (e, { m with eventChan := c })

/-- The three readings of `time.Now()` in one check cycle, in program order. -/
structure Clock where
  lastFetch : Time
  lastUpdated : Time
  detectedAt : Time
deriving DecidableEq, Repr

/-- How a call ends: it returns its error result, or the run time panics. -/
inductive Outcome where
  | returned (err : Option Str)
  | panicked
deriving DecidableEq, Repr

/-- A check cycle's end: how it ended, and the monitor and the state store after it. -/
structure CheckResult where
  outcome : Outcome
  monitor : Monitor
  store : Store
deriving DecidableEq, Repr

/-- The `changedFiles` of `checkRepository`: the part of the cycle that computes them once
the resolved commit is known to differ from the stored one. -/
def changedFilesFor (helper : GitHelper) (repo : Repository) (repoState : RepositoryState)
    (ok : Bool) (currentHash : Str) : List Str :=
  if ok && repoState.CurrentHash ≠ [] then
    match helper.GetChangedFiles repoState.CurrentHash currentHash repo.WatchPaths with
    | .error _ => repo.WatchPaths -- Assume all watched paths changed
    | .ok files => files
  else repo.WatchPaths -- No previous state, assume all paths changed

/-- Source `Monitor.checkRepository`: checks for changes in the repository. -/
def Monitor.checkRepository (env : GitEnv) (clock : Clock) (m : Monitor) (stateStore : Store) :
    CheckResult :=
  -- Get git helper
  let helper := NewGitHelper env
  -- Ensure repository is initialized
  match helper.EnsureRepository m.repo with
  | some err =>
    ⟨.returned (some ("failed to initialize repository: ".toList ++ err)), m, stateStore⟩
  | none =>
  -- Fetch from remote
  match helper.Fetch m.repo with
  | some err => ⟨.returned (some ("failed to fetch: ".toList ++ err)), m, stateStore⟩
  | none =>
  -- Get current hash
  match helper.GetHash m.repo.Branch with
  | .error err => ⟨.returned (some ("failed to get current hash: ".toList ++ err)), m, stateStore⟩
  | .ok currentHash =>
  -- Load previous state
  let found := stateStore.GetRepository m.repo.Name
  let repoState := found.1
  let ok := found.2
  -- Check if there's a change
  if !ok || repoState.CurrentHash ≠ currentHash then
    -- Check if any watched files changed
    let changedFiles := changedFilesFor helper m.repo repoState ok currentHash
    if changedFiles.length > 0 then
      -- Update state
      let newState : RepositoryState := { LastFetch := clock.lastFetch, CurrentHash := currentHash }
      match stateStore.UpdateRepository m.repo.Name newState clock.lastUpdated with
      | none => ⟨.panicked, m, stateStore⟩
      | some stateStore =>
        -- Emit change event
        let event : ChangeEvent :=
          { RepositoryName := m.repo.Name
            Files := changedFiles
            OldHash := repoState.CurrentHash
            NewHash := currentHash
            DetectedAt := clock.detectedAt }
        ⟨.returned none, { m with eventChan := (m.eventChan.trySend event).1 }, stateStore⟩
    else ⟨.returned none, m, stateStore⟩
  else ⟨.returned none, m, stateStore⟩

/-! ## `internal/executor/executor.go` -/

/-- How a call that hands back a value ends: it returns the value, or the run time
panics. -/
inductive Call (α : Type) where
  | returned (value : α)
  | panicked
deriving DecidableEq, Repr

/-- Source `ExecutionResult`. -/
structure ExecutionResult where
  RepositoryName : Str := []
  Success : Bool := false
  Output : Str := []
  Error : Str := []
  Duration : Nat := 0
  ExecutedAt : Time := 0
deriving DecidableEq, Repr

/-- What `cmd.Run()` answers for `bash -c script`: its error (a timeout of the context
kills the command and is an error too) and the captured output. -/
structure ShellRun where
  err : Option Str := none
  stdout : Str := []
  stderr : Str := []
deriving DecidableEq, Repr

/-- What the action runner meets: the shell, by script, environment variables and timeout,
and the readings of `time.Now()` for `ExecutedAt`, for `startTime`, and at
`time.Since(startTime)`. -/
structure ExecEnv where
  shell : Str → List Str → Nat → ShellRun
  executedAt : Time
  startTime : Time
  finished : Time

/-- Source `findRepository` (the same in `app.go` and `executor.go`): finds a repository
configuration by name; `none` is the nil pointer. -/
def findRepository (cfg : Config) (name : Str) : Option Repository :=
  cfg.Repositories.find? (fun repo => repo.Name = name)

/-- The loop of `join`, at index `i` with `result` built so far. -/
def joinLoop (sep : Str) : Nat → List Str → Str → Str
  | _, [], result => result
  | i, s :: rest, result =>
    joinLoop sep (i + 1) rest ((if i > 0 then result ++ sep else result) ++ s)

/-- Source `join`: joins strings with a separator. -/
def join (strs : List Str) (sep : Str) : Str := joinLoop sep 0 strs []

/-- Source `Executor.buildEnvironment`: the environment variables for the shell; panics on
the nil pointer when the event's repository is not in the configuration. The custom
variables follow in the order of the list that stands for the map. -/
def buildEnvironment (action : Action) (event : ChangeEvent) (configMgr : Manager) :
    Call (List Str) :=
  let cfg := configMgr.GetConfig
  match findRepository cfg event.RepositoryName with
  | none => .panicked
  | some repo =>
    .returned
      (["CDGUN_REPO_NAME=".toList ++ event.RepositoryName,
        "CDGUN_REPO_URL=".toList ++ repo.URL,
        "CDGUN_REPO_PATH=".toList ++ configMgr.GetRepositoryLocalPath event.RepositoryName,
        "CDGUN_BRANCH=".toList ++ repo.Branch,
        "CDGUN_CHANGED_FILES=".toList ++ join event.Files ",".toList,
        "CDGUN_OLD_HASH=".toList ++ event.OldHash,
        "CDGUN_NEW_HASH=".toList ++ event.NewHash] ++
        action.Env.map (fun kv => kv.1 ++ "=".toList ++ kv.2))

/-- Source `Executor.executeShell`: executes a shell script. -/
def executeShell (env : ExecEnv) (action : Action) (event : ChangeEvent)
    (configMgr : Manager) : Call (Option Str) :=
  -- Set environment variables
  match buildEnvironment action event configMgr with
  | .panicked => .panicked
  | .returned vars =>
    let run := env.shell action.Script vars (configMgr.GetActionTimeout action)
    match run.err with
    | some err =>
      .returned (some ("shell command failed: ".toList ++ err ++ "\nstdout: ".toList ++
        run.stdout ++ "\nstderr: ".toList ++ run.stderr))
    | none => .returned none

/-- Source `Executor.executeWebhook`: not yet implemented, it only logs. -/
def executeWebhook (_action : Action) (_event : ChangeEvent) : Option Str := none

/-- Source `Executor.Execute`: executes an action based on a change event. -/
def Execute (env : ExecEnv) (action : Action) (event : ChangeEvent) (configMgr : Manager) :
    Call (Except Str ExecutionResult) :=
  let result : ExecutionResult :=
    { RepositoryName := event.RepositoryName, ExecutedAt := env.executedAt }
  if action.Type_ = "shell".toList then
    match executeShell env action event configMgr with
    | .panicked => .panicked
    | .returned err =>
      let result := { result with Duration := env.finished - env.startTime }
      match err with
      | some err => .returned (.ok { result with Success := false, Error := err })
      | none => .returned (.ok { result with Success := true })
  else if action.Type_ = "webhook".toList then
    let err := executeWebhook action event
    let result := { result with Duration := env.finished - env.startTime }
    match err with
    | some err => .returned (.ok { result with Success := false, Error := err })
    | none => .returned (.ok { result with Success := true })
  else .returned (.error ("unknown action type: ".toList ++ action.Type_))

/-! ## `internal/app/app.go` -/

/-- The log output of the application: standard output, or the log file and whether it
has been closed. -/
inductive LogOut where
  | stdout
  | file (path : Str) (closed : Bool)
deriving DecidableEq, Repr

/-- Go `map[string]*monitor.Monitor`: the monitors, one per name. -/
abbrev MonitorMap := List (Str × Monitor)

/-- Go map write `monitors[name] = mon`. -/
def MonitorMap.store (ms : MonitorMap) (name : Str) (mon : Monitor) : MonitorMap :=
  match ms with
  | [] => [(name, mon)]
  | (name', mon') :: rest =>
    if name' = name then (name, mon) :: rest else (name', mon') :: MonitorMap.store rest name mon

/-- Source `App`: the configuration manager, the level string handed to the logger, the
state store shared with the monitors, the monitors, whether the stop channel has been
closed, and the log output. -/
structure App where
  config : Manager
  logLevel : Str := []
  stateStore : Store
  monitors : MonitorMap := []
  stopChanClosed : Bool := false
  logFile : LogOut := .stdout
deriving DecidableEq, Repr

/-- What the application meets: `encoding/json`, the configuration files, the action
runner's surroundings, the reading of `time.Now()` for the state store, and the answer of
`os.OpenFile` for the log file. -/
structure AppEnv where
  codec : JsonCodec
  config : ConfigEnv
  exec : ExecEnv
  now : Time
  openLogFile : Option Str

/-- The lines of `NewApp` that choose the log level: "Use logLevel from config if set,
otherwise use command-line flag". -/
def effectiveLogLevel (cfg : Config) (logLevel : Str) : Str :=
  if cfg.Agent.LogLevel ≠ [] then cfg.Agent.LogLevel else logLevel

/-- The loop of `initializeMonitors` (the loop variable is one per turn). -/
def initializeMonitorsLoop : List Repository → MonitorMap → MonitorMap
  | [], monitors => monitors
  | repo :: rest, monitors => initializeMonitorsLoop rest (monitors.store repo.Name (NewMonitor repo))

/-- Source `App.initializeMonitors`: creates monitors for all configured repositories. -/
def App.initializeMonitors (a : App) : App :=
  { a with monitors := initializeMonitorsLoop a.config.GetConfig.Repositories a.monitors }

/-- Source `NewApp`: creates a new application instance. -/
def NewApp (env : AppEnv) (disk : Disk) (configPath logLevel : Str) : Except Str App :=
  -- Load config first to get log file path
  match NewManager env.config configPath with
  | .error err => .error ("failed to load config: ".toList ++ err)
  | .ok configMgr =>
    let cfg := configMgr.GetConfig
    -- Setup log output (file or stdout)
    match (if cfg.Agent.LogFile ≠ [] then env.openLogFile else none) with
    | some err => .error ("failed to open log file: ".toList ++ err)
    | none =>
      let logOut := if cfg.Agent.LogFile ≠ [] then LogOut.file cfg.Agent.LogFile false
        else LogOut.stdout
      -- Use logLevel from config if set, otherwise use command-line flag
      let level := effectiveLogLevel cfg logLevel
      -- Create state store
      match NewStore env.codec disk env.now cfg.Agent.StateDir with
      | .error err => .error ("failed to create state store: ".toList ++ err)
      | .ok stateStore =>
        let app : App :=
          { config := configMgr, logLevel := level, stateStore := stateStore, monitors := [],
            stopChanClosed := false, logFile := logOut }
        -- Initialize monitors
        .ok app.initializeMonitors

/-- Source `App.reloadConfig`: reloads the configuration; the monitors stay as they are. -/
def App.reloadConfig (env : AppEnv) (a : App) : App :=
  match a.config.Load env.config with
  | (some _, _) => a
  | (none, m) => { a with config := m }

/-- Source `App.forceCheck`: triggers a forced check of all repositories. -/
def App.forceCheck (a : App) : App :=
  { a with monitors := a.monitors.map (fun nm => (nm.1, nm.2.ForceCheck)) }

/-- What `Stop` hands back: how it ended, and the application and the disk after it. -/
structure StopResult where
  outcome : Outcome
  app : App
  disk : Disk
deriving DecidableEq, Repr

/-- Source `App.Stop`: gracefully stops the application. Closing a closed channel panics.
The wait for the monitors, which ends when they are done or after 30 seconds, changes
nothing here. -/
def App.Stop (env : AppEnv) (disk : Disk) (a : App) : StopResult :=
  if a.stopChanClosed then ⟨.panicked, a, disk⟩
  else
    let a := { a with stopChanClosed := true }
    -- Save state
    let closed := a.stateStore.Close env.codec disk
    let a := { a with stateStore := closed.store }
    match closed.err with
    | some err => ⟨.returned (some err), a, closed.disk⟩
    | none =>
      -- Close log file if open
      match a.logFile with
      | .file path _ => ⟨.returned none, { a with logFile := .file path true }, closed.disk⟩
      | .stdout => ⟨.returned none, a, closed.disk⟩

/-- What the fold of an execution result writes over the state read from the store. -/
def foldResult (repoState : RepositoryState) (result : ExecutionResult) : RepositoryState :=
  let repoState := { repoState with LastActionExecuted := result.ExecutedAt }
  if result.Success then
    { repoState with LastActionStatus := "success".toList, LastError := [] }
  else
    { repoState with LastActionStatus := "failure".toList, LastError := result.Error }

/-- Source `App.handleMonitorEvent`: handles change events from monitors. -/
def App.handleMonitorEvent (env : AppEnv) (a : App) (event : ChangeEvent) : Outcome × App :=
  let cfg := a.config.GetConfig
  match findRepository cfg event.RepositoryName with
  | none => (.returned none, a)
  | some repo =>
    -- Execute the action
    match Execute env.exec repo.Action event a.config with
    | .panicked => (.panicked, a)
    | .returned (.error _) => (.returned none, a)
    | .returned (.ok result) =>
      -- Update state with execution result
      let repoState := (a.stateStore.GetRepository event.RepositoryName).1
      let repoState := foldResult repoState result
      match a.stateStore.UpdateRepository event.RepositoryName repoState env.now with
      | none => (.panicked, a)
      | some stateStore => (.returned none, { a with stateStore := stateStore })

/-- The signals `Start` asks to be notified of. -/
inductive Signal where
  | SIGTERM
  | SIGINT
  | SIGHUP
  | SIGUSR1
deriving DecidableEq, Repr

/-- The case `reflect.Select` chose in one turn of `eventLoop`: the stop channel, the
signal channel with the signal received (`none` when the channel is closed), the timer,
or the event channel of the monitor of that name. -/
inductive Selected where
  | stop
  | signal (recv : Option Signal)
  | timer
  | monitorEvent (name : Str)
deriving DecidableEq, Repr

/-- How a turn of `eventLoop` ends: the loop returns, goes on to the next turn, or the
run time panics. -/
inductive Next where
  | exit
  | again
  | panicked
deriving DecidableEq, Repr

/-- A turn of `eventLoop`: how it ended, and the application and the disk after it. -/
structure LoopTurn where
  next : Next
  app : App
  disk : Disk
deriving DecidableEq, Repr

/-- One turn of the `for` loop of `App.eventLoop`, for the case `reflect.Select` chose;
`none` when the chosen monitor has no event waiting, so that its case cannot be chosen. -/
def App.eventLoopTurn (env : AppEnv) (disk : Disk) (a : App) (chosen : Selected) :
    Option LoopTurn :=
  match chosen with
  | .stop =>
    -- Stop signal
    some ⟨.exit, a, disk⟩
  | .signal none => some ⟨.again, a, disk⟩
  | .signal (some .SIGTERM) | .signal (some .SIGINT) =>
    let stopped := a.Stop env disk
    match stopped.outcome with
    | .panicked => some ⟨.panicked, stopped.app, stopped.disk⟩
    | .returned _ => some ⟨.exit, stopped.app, stopped.disk⟩
  | .signal (some .SIGHUP) => some ⟨.again, a.reloadConfig env, disk⟩
  | .signal (some .SIGUSR1) => some ⟨.again, a.forceCheck, disk⟩
  | .timer =>
    -- Periodic check for config changes
    if a.config.IsModified env.config then some ⟨.again, a.reloadConfig env, disk⟩
    else some ⟨.again, a, disk⟩
  | .monitorEvent name =>
    -- Monitor event received
    match a.monitors.lookup name with
    | none => none
    | some mon =>
      match mon.takeEvent with
      | none => none
      | some (changeEvent, mon') =>
        let a := { a with monitors := a.monitors.store name mon' }
        match a.handleMonitorEvent env changeEvent with
        | (.panicked, a) => some ⟨.panicked, a, disk⟩
        | (.returned _, a) => some ⟨.again, a, disk⟩

/-! ## The scenarios of the specification -/

/-- Repository "svc-a" with the watch pattern `src/`. -/
def svcA : Repository :=
  { Name := "svc-a".toList, URL := "https://example.org/svc-a.git".toList,
    Branch := "main".toList, WatchPaths := ["src/".toList] }

/-- A working copy that exists and is valid, a fetch that succeeds, the remote branch at
commit `B`, and `git diff` printing `diffOutput`. -/
def envAtB (diffOutput : Str) : GitEnv :=
  { stat := none, revParseGitDir := none, mkdirAll := none, clone := {}, fetch := {},
    revParse := fun _ => { output := "B\n".toList },
    diff := fun _ _ => { output := diffOutput } }

/-- A working copy whose fetch fails. -/
def envFetchFails : GitEnv :=
  { stat := none, revParseGitDir := none, mkdirAll := none, clone := {},
    fetch := { output := "fatal: unable to access".toList, err := some "exit status 128".toList },
    revParse := fun _ => { output := "B\n".toList },
    diff := fun _ _ => {} }

/-- The stored state of "svc-a" at commit `hash`, after a successful action. -/
def entryAt (hash : Str) : RepositoryState :=
  { Name := "svc-a".toList, LastFetch := 1, CurrentHash := hash,
    LastActionExecuted := 2, LastActionStatus := "success".toList }

/-- A state store that holds commit `hash` for "svc-a", with no save pending. -/
def storeAt (hash : Str) : Store :=
  { state :=
      { Version := "1.0".toList, LastUpdated := 1,
        Repositories := some [("svc-a".toList, entryAt hash)] },
    filePath := "/var/lib/cd-gun/state.json".toList }

/-- A state store that has never seen a repository. -/
def storeFresh : Store :=
  { state := NewState 1, filePath := "/var/lib/cd-gun/state.json".toList }

/-- The clock readings of the scenarios. -/
def clockAt10 : Clock := { lastFetch := 10, lastUpdated := 11, detectedAt := 12 }

/-- An event of "svc-a" that the control loop has not consumed yet. -/
def eventForA : ChangeEvent :=
  { RepositoryName := "svc-a".toList, Files := ["src/".toList], OldHash := [],
    NewHash := "A".toList, DetectedAt := 3 }

/-- The monitor of "svc-a" with `eventForA` waiting in its event slot. -/
def monitorSlotFull : Monitor :=
  { NewMonitor svcA with eventChan := ((NewMonitor svcA).eventChan.trySend eventForA).1 }

/-- The configuration of the valid file of `TestNewManager`, as parsed. -/
def testConfig : Config :=
  { Agent :=
      { Name := "test-agent".toList, LogLevel := "info".toList, StateDir := "/tmp/state".toList,
        CacheDir := "/tmp/cache".toList, PollInterval := "5m".toList },
    Repositories :=
      [{ Name := "test-repo".toList, URL := "https://github.com/test/repo.git".toList,
         Branch := "main".toList, WatchPaths := ["src/".toList],
         Action := { Type_ := "shell".toList, Script := "echo 'deploying'".toList } }] }

/-- The minimal configuration of `TestConfigDefaults`, as parsed: no agent settings. -/
def minimalConfig : Config :=
  { Repositories :=
      [{ Name := "test".toList, URL := "https://github.com/test/repo.git".toList,
         WatchPaths := [".".toList],
         Action := { Type_ := "shell".toList, Script := "true".toList } }] }

/-- A configuration that lists the name "svc-a" twice. -/
def twiceSvcAConfig : Config :=
  { Repositories :=
      [{ svcA with Action := { Type_ := "shell".toList, Script := "true".toList } },
       { svcA with URL := "https://example.org/other.git".toList,
                   Action := { Type_ := "shell".toList, Script := "false".toList } }] }

/-- A configuration whose repository "svc-a" has the action type "custom". -/
def customActionConfig : Config :=
  { Repositories :=
      [{ svcA with Action := { Type_ := "custom".toList, Handler := "deploy".toList } }] }

/-- A configuration whose repository "svc-a" runs a shell script. -/
def shellActionConfig : Config :=
  { Repositories :=
      [{ svcA with Action := { Type_ := "shell".toList, Script := "make deploy".toList } }] }

/-- A stand-in for `encoding/json` in the scenarios: it writes the version only, and
reads back what it wrote. -/
def codecStandIn : JsonCodec :=
  { marshalIndent := fun st => .ok ("version=".toList ++ st.Version),
    unmarshal := fun data =>
      if HasPrefix data "version=".toList then
        .ok { Version := data.drop 8, Repositories := some [] }
      else .error "invalid character".toList }

/-- Configuration files that parse to `cfg`, with no include files, and durations that
parse when they are not empty. -/
def configEnvOf (cfg : Config) : ConfigEnv :=
  { parsed := .ok cfg,
    loadRepositoriesFromPattern := fun _ => .ok [],
    parseDuration := fun d => if d = [] then .error "invalid duration".toList else .ok 300,
    modTime := .ok 1 }

/-- An action runner whose shell command is killed at the timeout. -/
def shellTimesOut : ExecEnv :=
  { shell := fun _ _ _ => { err := some "signal: killed".toList },
    executedAt := 20, startTime := 20, finished := 320 }

/-- An action runner whose shell command succeeds. -/
def shellSucceeds : ExecEnv :=
  { shell := fun _ _ _ => { stdout := "deployed".toList },
    executedAt := 20, startTime := 20, finished := 25 }

/-- The surroundings of the application in the scenarios. -/
def appEnvOf (cfg : Config) (exec : ExecEnv) : AppEnv :=
  { codec := codecStandIn, config := configEnvOf cfg, exec := exec, now := 21,
    openLogFile := none }

/-- The state store right after the first check of "svc-a": commit `B` stored, no action
recorded yet, a debounced save pending. -/
def storeChecked : Store :=
  ((NewMonitor svcA).checkRepository (envAtB []) clockAt10 storeFresh).store

/-- The event of the first check of "svc-a". -/
def eventForB : ChangeEvent :=
  { RepositoryName := "svc-a".toList, Files := ["src/".toList], OldHash := [],
    NewHash := "B".toList, DetectedAt := 12 }

/-- The application over the validated configuration `cfg` and the state store `store`,
its monitors new. -/
def appWith (cfg : Config) (store : Store) : App :=
  { config := { config := (Manager.validate cfg).1, configPath := "/etc/cd-gun/config.yaml".toList },
    logLevel := "info".toList, stateStore := store,
    monitors := initializeMonitorsLoop (Manager.validate cfg).1.Repositories [] }

/-- The application with the event of the first check waiting in the monitor of
"svc-a". -/
def appEventWaiting : App :=
  { appWith shellActionConfig storeChecked with
    monitors := [("svc-a".toList,
      { NewMonitor svcA with eventChan := ((NewMonitor svcA).eventChan.trySend eventForB).1 })] }

/-- A disk whose state file does not hold JSON. -/
def diskBadStateFile : Disk :=
  { files := [("/var/lib/cd-gun/state.json".toList, "not json".toList)] }

/-- What `encoding/json` answers on the state files `{}` and `null`: both are valid JSON
without a `repositories` field, and `json.Unmarshal` returns no error and leaves every
field of the `State` at its zero value, the map nil. -/
def codecFieldsMissing : JsonCodec :=
  { marshalIndent := codecStandIn.marshalIndent,
    unmarshal := fun data =>
      if data = "\x7b\x7d".toList ∨ data = "null".toList then .ok {}
      else .error "invalid character".toList }

/-- A disk whose state file holds the empty JSON object `{}`. -/
def diskEmptyObject : Disk :=
  { files := [("/var/lib/cd-gun/state.json".toList, "\x7b\x7d".toList)] }

/-- Repository "svc-a" with the watch pattern `/`. -/
def svcAWholeTree : Repository := { svcA with WatchPaths := ["/".toList] }

/-- The specification's reading of a repository entry that `validate` refuses. -/
def repositoryInvalid (repo : Repository) : Prop :=
  repo.Name = [] ∨ repo.URL = [] ∨ repo.WatchPaths = [] ∨ repo.Action.Type_ = [] ∨
    (repo.Action.Type_ = "shell".toList ∧ repo.Action.Script = []) ∨
    (repo.Action.Type_ = "webhook".toList ∧ repo.Action.URL = [])

/-- The specification's reading of a default: the value where set, else the default. -/
def orDefault (value default : Str) : Str := if value = [] then default else value

/-- The specification's reading of the defaults of a repository entry. -/
def repositoryWithDefaults (agentPollInterval : Str) (repo : Repository) : Repository :=
  { repo with
    Branch := orDefault repo.Branch "main".toList
    Auth := { repo.Auth with Type_ := orDefault repo.Auth.Type_ "none".toList }
    PollInterval := orDefault repo.PollInterval agentPollInterval
    Action := { repo.Action with Timeout := orDefault repo.Action.Timeout "10m".toList } }

/-! ## Lemmas on the string helpers -/

theorem HasPrefix_iff (s pre : Str) : HasPrefix s pre = true ↔ ∃ rest, s = pre ++ rest := by
  unfold HasPrefix
  rw [List.isPrefixOf_iff_prefix]
  constructor
  · rintro ⟨t, ht⟩
    exact ⟨t, ht.symm⟩
  · rintro ⟨t, ht⟩
    exact ⟨t, ht.symm⟩

theorem HasSuffix_iff (s suf : Str) : HasSuffix s suf = true ↔ ∃ front, s = front ++ suf := by
  unfold HasSuffix
  rw [List.isSuffixOf_iff_suffix]
  constructor
  · rintro ⟨t, ht⟩
    exact ⟨t, ht.symm⟩
  · rintro ⟨t, ht⟩
    exact ⟨t, ht.symm⟩

theorem TrimSuffix_append (front suf : Str) : TrimSuffix (front ++ suf) suf = front := by
  unfold TrimSuffix
  have h : HasSuffix (front ++ suf) suf = true := (HasSuffix_iff _ _).2 ⟨front, rfl⟩
  rw [if_pos h]
  have : (front ++ suf).length - suf.length = front.length := by
    simp
  rw [this, List.take_left]

theorem TrimSuffix_of_not (s suf : Str) (h : HasSuffix s suf = false) : TrimSuffix s suf = s := by
  unfold TrimSuffix
  simp [h]

theorem patternSansSlash_nil : patternSansSlash [] = [] := rfl

theorem patternSansSlash_slash (q : Str) : patternSansSlash (q ++ ['/']) = q := by
  unfold patternSansSlash
  have h1 : (q ++ ['/']).getLast? = some '/' := by simp
  rw [h1]
  simp

theorem patternSansSlash_other (q : Str) (c : Char) (hc : c ≠ '/') :
    patternSansSlash (q ++ [c]) = q ++ [c] := by
  unfold patternSansSlash
  have h1 : (q ++ [c]).getLast? = some c := by simp
  rw [h1]
  split
  · rename_i heq
    simp at heq
    exact absurd heq hc
  · rfl

theorem str_nil_or_snoc (p : Str) : p = [] ∨ ∃ q c, p = q ++ [c] := by
  rcases List.eq_nil_or_concat p with h | ⟨q, c, h⟩
  · exact Or.inl h
  · exact Or.inr ⟨q, c, by simpa using h⟩

theorem TrimSuffix_slash (p : Str) : TrimSuffix p ['/'] = patternSansSlash p := by
  rcases str_nil_or_snoc p with h | ⟨q, c, h⟩
  · subst h
    rfl
  · subst h
    by_cases hc : c = '/'
    · subst hc
      rw [patternSansSlash_slash]
      exact TrimSuffix_append q ['/']
    · rw [patternSansSlash_other q c hc]
      have h2 : HasSuffix (q ++ [c]) ['/'] = false := by
        cases hs : HasSuffix (q ++ [c]) ['/'] with
        | false => rfl
        | true =>
          obtain ⟨front, hf⟩ := (HasSuffix_iff _ _).1 hs
          have := List.append_inj_right' hf rfl
          simp at this
          exact absurd this hc
      exact TrimSuffix_of_not _ _ h2

theorem liesUnder_iff (f d : Str) : HasPrefix f (d ++ ['/']) = true ↔ liesUnder f d := by
  rw [HasPrefix_iff]
  unfold liesUnder
  constructor
  · rintro ⟨rest, h⟩
    exact ⟨rest, by simpa using h⟩
  · rintro ⟨rest, h⟩
    exact ⟨rest, by simpa using h⟩

/-! ## The path filter -/

/-- C1: `matchesPath f p` holds exactly when `f` equals `p`, or `f` equals `p` without its
single trailing `/`, or `f` starts with that pattern followed by `/`, or the pattern ends
in the wildcard `/*` and `f` starts with the directory before the wildcard followed by
`/`. -/
theorem matchesPath_iff (f p : Str) :
    matchesPath f p = true ↔
      (f = p ∨ f = patternSansSlash p ∨ liesUnder f (patternSansSlash p) ∨
        ∃ dir, patternSansSlash p = dir ++ ['/', '*'] ∧ liesUnder f dir) := by
  unfold matchesPath
  simp only [TrimSuffix_slash]
  have hp : f = p → f = patternSansSlash p ∨ liesUnder f (patternSansSlash p) := by
    intro h
    subst h
    rcases str_nil_or_snoc f with h | ⟨q, c, h⟩
    · subst h
      exact Or.inl rfl
    · subst h
      by_cases hc : c = '/'
      · subst hc
        rw [patternSansSlash_slash]
        exact Or.inr ⟨[], rfl⟩
      · rw [patternSansSlash_other q c hc]
        exact Or.inl rfl
  constructor
  · intro h
    by_cases h1 : f = patternSansSlash p
    · exact Or.inr (Or.inl h1)
    · rw [if_neg h1] at h
      by_cases h2 : HasPrefix f (patternSansSlash p ++ ['/']) = true
      · exact Or.inr (Or.inr (Or.inl ((liesUnder_iff _ _).1 h2)))
      · rw [if_neg h2] at h
        by_cases h3 : HasSuffix (patternSansSlash p) ['/', '*'] = true
        · rw [if_pos h3] at h
          obtain ⟨dir, hd⟩ := (HasSuffix_iff _ _).1 h3
          refine Or.inr (Or.inr (Or.inr ⟨dir, hd, ?_⟩))
          rw [hd, TrimSuffix_append] at h
          by_cases h4 : HasPrefix f (dir ++ ['/']) = true
          · exact (liesUnder_iff _ _).1 h4
          · simp [h4] at h
        · rw [if_neg h3] at h
          exact absurd h (by simp)
  · intro h
    have h' : f = patternSansSlash p ∨ liesUnder f (patternSansSlash p) ∨
        ∃ dir, patternSansSlash p = dir ++ ['/', '*'] ∧ liesUnder f dir := by
      rcases h with h | h | h | h
      · rcases hp h with h | h
        · exact Or.inl h
        · exact Or.inr (Or.inl h)
      · exact Or.inl h
      · exact Or.inr (Or.inl h)
      · exact Or.inr (Or.inr h)
    by_cases h1 : f = patternSansSlash p
    · rw [if_pos h1]
    · rw [if_neg h1]
      by_cases h2 : HasPrefix f (patternSansSlash p ++ ['/']) = true
      · rw [if_pos h2]
      · rw [if_neg h2]
        rcases h' with h | h | ⟨dir, hd, hu⟩
        · exact absurd h h1
        · exact absurd ((liesUnder_iff _ _).2 h) h2
        · have h3 : HasSuffix (patternSansSlash p) ['/', '*'] = true :=
            (HasSuffix_iff _ _).2 ⟨dir, hd⟩
          rw [if_pos h3, hd, TrimSuffix_append, (liesUnder_iff _ _).2 hu]
          rfl

/-! ## The filter of `GetChangedFiles` -/

theorem matchesAnyWatch_eq_any (changed : Str) (watchPaths : List Str) :
    matchesAnyWatch changed watchPaths = watchPaths.any (fun w => matchesPath changed w) := by
  induction watchPaths with
  | nil => rfl
  | cons w ws ih =>
    simp only [matchesAnyWatch, List.any_cons, ih]
    cases matchesPath changed w <;> simp

theorem filterLoop_eq_filter (watchPaths changedFiles filtered : List Str) :
    filterLoop watchPaths changedFiles filtered =
      filtered ++ changedFiles.filter (fun c => watchPaths.any (fun w => matchesPath c w)) := by
  induction changedFiles generalizing filtered with
  | nil => simp [filterLoop]
  | cons c cs ih =>
    simp only [filterLoop, matchesAnyWatch_eq_any]
    by_cases h : (watchPaths.any (fun w => matchesPath c w)) = true
    · rw [if_pos h, ih]
      simp [List.filter_cons, h]
    · rw [if_neg h, ih]
      simp [List.filter_cons, h]

theorem GetChangedFiles_eq_filter (g : GitHelper) (oldHash newHash : Str)
    (watchPaths : List Str) (hold : oldHash ≠ [])
    (hdiff : (g.env.diff oldHash newHash).err = none) :
    g.GetChangedFiles oldHash newHash watchPaths =
      .ok ((changedFilesOf (g.env.diff oldHash newHash).output).filter
        (fun c => watchPaths.any (fun w => matchesPath c w))) := by
  unfold GitHelper.GetChangedFiles
  rw [if_neg hold]
  simp only [hdiff, filterLoop_eq_filter, List.nil_append]

/-- The filter of `GetChangedFiles` over the lines it reads from the output of `git diff`
(`changedFilesOf`, which is never the empty list): for a non-empty previous commit the
result is that list with exactly the lines kept that match at least one watch pattern, in
the same order, every line kept once or not at all. -/
theorem GetChangedFiles_filtered (g : GitHelper) (oldHash newHash : Str) (watchPaths : List Str)
    (hold : oldHash ≠ []) (hdiff : (g.env.diff oldHash newHash).err = none) :
    ∃ filtered : List Str,
      g.GetChangedFiles oldHash newHash watchPaths = .ok filtered ∧
      filtered = (changedFilesOf (g.env.diff oldHash newHash).output).filter
        (fun c => watchPaths.any (fun w => matchesPath c w)) ∧
      filtered.Sublist (changedFilesOf (g.env.diff oldHash newHash).output) ∧
      (∀ c, c ∈ filtered ↔ c ∈ changedFilesOf (g.env.diff oldHash newHash).output ∧
        ∃ w ∈ watchPaths, matchesPath c w = true) ∧
      (∀ c, (∃ w ∈ watchPaths, matchesPath c w = true) →
        filtered.count c = (changedFilesOf (g.env.diff oldHash newHash).output).count c) := by
  refine ⟨_, GetChangedFiles_eq_filter g oldHash newHash watchPaths hold hdiff, rfl,
    List.filter_sublist _, ?_, ?_⟩
  · intro c
    simp only [List.mem_filter, List.any_eq_true]
  · intro c hc
    rw [List.count_filter]
    simpa using hc

theorem patternSansSlash_eq_nil_iff (p : Str) :
    patternSansSlash p = [] ↔ p = [] ∨ p = ['/'] := by
  rcases str_nil_or_snoc p with h | ⟨q, c, h⟩
  · subst h
    exact ⟨fun _ => Or.inl rfl, fun _ => rfl⟩
  · subst h
    by_cases hc : c = '/'
    · subst hc
      rw [patternSansSlash_slash]
      constructor
      · intro hq
        subst hq
        exact Or.inr rfl
      · rintro (h | h)
        · exact absurd h (by simp)
        · have hlen := congrArg List.length h
          simp only [List.length_append, List.length_singleton, List.length_cons,
            List.length_nil] at hlen
          exact List.length_eq_zero.1 (by omega)
    · rw [patternSansSlash_other q c hc]
      constructor
      · intro h
        exact absurd h (by simp)
      · rintro (h | h)
        · exact absurd h (by simp)
        · have hrev := congrArg List.reverse h
          simp only [List.reverse_append, List.reverse_cons, List.reverse_nil, List.nil_append,
            List.singleton_append, List.cons.injEq] at hrev
          exact absurd hrev.1 hc

theorem HasPrefix_nil_snoc (q : Str) (c : Char) : HasPrefix [] (q ++ [c]) = false := by
  cases h : HasPrefix [] (q ++ [c]) with
  | false => rfl
  | true =>
    obtain ⟨rest, hr⟩ := (HasPrefix_iff _ _).1 h
    have hlen := congrArg List.length hr
    simp only [List.length_nil, List.length_append, List.length_singleton] at hlen
    omega

theorem matchesPath_nil_iff (p : Str) : matchesPath [] p = true ↔ p = [] ∨ p = ['/'] := by
  rw [← patternSansSlash_eq_nil_iff]
  unfold matchesPath
  simp only [TrimSuffix_slash, HasPrefix_nil_snoc]
  by_cases h1 : [] = patternSansSlash p
  · rw [if_pos h1]
    exact ⟨fun _ => h1.symm, fun _ => rfl⟩
  · rw [if_neg h1]
    constructor
    · intro h
      split_ifs at h <;> contradiction
    · intro h
      exact absurd h.symm h1

theorem changedFilesOf_ne_nil (output : Str) : changedFilesOf output ≠ [] := by
  unfold changedFilesOf
  generalize TrimSpace output = s
  induction s with
  | nil => simp [Split]
  | cons c cs ih =>
    unfold Split
    split_ifs
    · simp
    · split
      · simp
      · simp

/-- C2, where the code departs from the claim: when `git diff` prints nothing (or only
white space), so that the diff lists no path, `GetChangedFiles` still reads one changed
file, the empty path, and returns it as the filtered change set exactly when a watch
pattern is `/` or the empty pattern; with no such pattern it returns the empty set. -/
theorem GetChangedFiles_empty_diff (g : GitHelper) (oldHash newHash : Str)
    (watchPaths : List Str) (hold : oldHash ≠ [])
    (hdiff : (g.env.diff oldHash newHash).err = none)
    (hempty : TrimSpace (g.env.diff oldHash newHash).output = []) :
    changedFilesOf (g.env.diff oldHash newHash).output = [[]] ∧
    ((∃ w ∈ watchPaths, w = [] ∨ w = ['/']) →
      g.GetChangedFiles oldHash newHash watchPaths = .ok [[]]) ∧
    ((∀ w ∈ watchPaths, w ≠ [] ∧ w ≠ ['/']) →
      g.GetChangedFiles oldHash newHash watchPaths = .ok []) := by
  have hfiles : changedFilesOf (g.env.diff oldHash newHash).output = [[]] := by
    unfold changedFilesOf
    rw [hempty]
    rfl
  have hres := GetChangedFiles_eq_filter g oldHash newHash watchPaths hold hdiff
  rw [hfiles] at hres
  refine ⟨hfiles, ?_, ?_⟩
  · rintro ⟨w, hw, hpat⟩
    have hany : (watchPaths.any fun w => matchesPath [] w) = true :=
      List.any_eq_true.2 ⟨w, hw, (matchesPath_nil_iff w).2 hpat⟩
    rw [hres]
    simp [List.filter_cons, hany]
  · intro hall
    have hany : ¬ (watchPaths.any fun w => matchesPath [] w) = true := by
      intro h
      obtain ⟨w, hw, hm⟩ := List.any_eq_true.1 h
      rcases (matchesPath_nil_iff w).1 hm with e | e
      · exact (hall w hw).1 e
      · exact (hall w hw).2 e
    rw [hres]
    simp [List.filter_cons, hany]

/-! ## The state store -/

theorem RepoMap.lookup_store_same (m : RepoMap) (k : Str) (v : RepositoryState) :
    (m.store k v).lookup k = some v := by
  induction m with
  | nil => simp [RepoMap.store, RepoMap.lookup]
  | cons kv rest ih =>
    obtain ⟨k', v'⟩ := kv
    by_cases h : k' = k
    · simp [RepoMap.store, RepoMap.lookup, h]
    · simp [RepoMap.store, RepoMap.lookup, h, ih]

theorem RepoMap.lookup_store_other (m : RepoMap) (k k₀ : Str) (v : RepositoryState)
    (hk : k₀ ≠ k) : (m.store k v).lookup k₀ = m.lookup k₀ := by
  induction m with
  | nil =>
    have hk' : ¬ k = k₀ := fun h => hk h.symm
    simp [RepoMap.store, RepoMap.lookup, hk']
  | cons kv rest ih =>
    obtain ⟨k', v'⟩ := kv
    by_cases h : k' = k
    · subst h
      have hk' : ¬ k' = k₀ := fun h => hk h.symm
      simp [RepoMap.store, RepoMap.lookup, hk']
    · by_cases h' : k' = k₀
      · subst h'
        simp [RepoMap.store, RepoMap.lookup, h]
      · simp [RepoMap.store, RepoMap.lookup, h, h', ih]

theorem Store.GetRepository_found_isSome (s : Store) (name : Str) (rs : RepositoryState)
    (h : s.GetRepository name = (rs, true)) : s.state.Repositories.isSome = true := by
  unfold Store.GetRepository State.GetRepository at h
  cases hm : s.state.Repositories with
  | none => rw [hm] at h; simp at h
  | some m => rfl

theorem Store.UpdateRepository_isSome (s : Store) (name : Str) (st : RepositoryState) (now : Time)
    (h : s.state.Repositories.isSome = true) :
    ∃ s', s.UpdateRepository name st now = some s' ∧
      s'.GetRepository name = ({ st with Name := name }, true) := by
  cases hm : s.state.Repositories with
  | none => rw [hm] at h; simp at h
  | some m =>
    refine ⟨Store.SaveAsync { s with state :=
      { s.state with Repositories := some (m.store name { st with Name := name }),
                     LastUpdated := now } }, ?_, ?_⟩
    · simp [Store.UpdateRepository, State.UpdateRepository, hm]
    · unfold Store.SaveAsync
      split <;>
        simp [Store.GetRepository, State.GetRepository, RepoMap.lookup_store_same]

theorem Store.UpdateRepository_get (s s' : Store) (name : Str) (st : RepositoryState) (now : Time)
    (h : s.UpdateRepository name st now = some s') :
    s'.GetRepository name = ({ st with Name := name }, true) := by
  cases hm : s.state.Repositories with
  | none => simp [Store.UpdateRepository, State.UpdateRepository, hm] at h
  | some m =>
    obtain ⟨s'', h1, h2⟩ := Store.UpdateRepository_isSome s name st now (by simp [hm])
    rw [h1] at h
    cases h
    exact h2

/-! ## The check cycle -/

theorem checkRepository_ensure_failed (env : GitEnv) (clock : Clock) (m : Monitor)
    (stateStore : Store) (err : Str)
    (he : (NewGitHelper env).EnsureRepository m.repo = some err) :
    m.checkRepository env clock stateStore =
      ⟨.returned (some ("failed to initialize repository: ".toList ++ err)), m, stateStore⟩ := by
  simp only [Monitor.checkRepository, he]

theorem checkRepository_fetch_failed (env : GitEnv) (clock : Clock) (m : Monitor)
    (stateStore : Store) (err : Str)
    (he : (NewGitHelper env).EnsureRepository m.repo = none)
    (hf : (NewGitHelper env).Fetch m.repo = some err) :
    m.checkRepository env clock stateStore =
      ⟨.returned (some ("failed to fetch: ".toList ++ err)), m, stateStore⟩ := by
  simp only [Monitor.checkRepository, he, hf]

theorem checkRepository_hash_failed (env : GitEnv) (clock : Clock) (m : Monitor)
    (stateStore : Store) (err : Str)
    (he : (NewGitHelper env).EnsureRepository m.repo = none)
    (hf : (NewGitHelper env).Fetch m.repo = none)
    (hh : (NewGitHelper env).GetHash m.repo.Branch = .error err) :
    m.checkRepository env clock stateStore =
      ⟨.returned (some ("failed to get current hash: ".toList ++ err)), m, stateStore⟩ := by
  simp only [Monitor.checkRepository, he, hf, hh]

/-- What a check cycle does once the commit `currentHash` is resolved. -/
theorem checkRepository_resolved (env : GitEnv) (clock : Clock) (m : Monitor)
    (stateStore : Store) (currentHash : Str)
    (he : (NewGitHelper env).EnsureRepository m.repo = none)
    (hf : (NewGitHelper env).Fetch m.repo = none)
    (hh : (NewGitHelper env).GetHash m.repo.Branch = .ok currentHash) :
    m.checkRepository env clock stateStore =
      if (!(stateStore.GetRepository m.repo.Name).2 ||
          decide ((stateStore.GetRepository m.repo.Name).1.CurrentHash ≠ currentHash)) = true then
        if (changedFilesFor (NewGitHelper env) m.repo (stateStore.GetRepository m.repo.Name).1
            (stateStore.GetRepository m.repo.Name).2 currentHash).length > 0 then
          match stateStore.UpdateRepository m.repo.Name
              { LastFetch := clock.lastFetch, CurrentHash := currentHash } clock.lastUpdated with
          | none => ⟨.panicked, m, stateStore⟩
          | some stateStore' =>
            ⟨.returned none,
              { m with eventChan := (m.eventChan.trySend
                  { RepositoryName := m.repo.Name
                    Files := changedFilesFor (NewGitHelper env) m.repo
                      (stateStore.GetRepository m.repo.Name).1
                      (stateStore.GetRepository m.repo.Name).2 currentHash
                    OldHash := (stateStore.GetRepository m.repo.Name).1.CurrentHash
                    NewHash := currentHash
                    DetectedAt := clock.detectedAt }).1 },
              stateStore'⟩
        else ⟨.returned none, m, stateStore⟩
      else ⟨.returned none, m, stateStore⟩ := by
  simp only [Monitor.checkRepository, he, hf, hh]

/-- C5: when the state store holds the repository and its stored commit equals the commit
resolved in the cycle, `checkRepository` puts no event in the event slot (the monitor is
unchanged) and leaves the state store, every field of the repository's entry included,
as it was. -/
theorem checkRepository_same_commit (env : GitEnv) (clock : Clock) (m : Monitor)
    (stateStore : Store) (rs : RepositoryState) (currentHash : Str)
    (hhash : (NewGitHelper env).GetHash m.repo.Branch = .ok currentHash)
    (hstored : stateStore.GetRepository m.repo.Name = (rs, true))
    (hsame : rs.CurrentHash = currentHash) :
    (m.checkRepository env clock stateStore).monitor = m ∧
    (m.checkRepository env clock stateStore).store = stateStore ∧
    (m.checkRepository env clock stateStore).store.GetRepository m.repo.Name = (rs, true) := by
  have key : (m.checkRepository env clock stateStore).monitor = m ∧
      (m.checkRepository env clock stateStore).store = stateStore := by
    cases he : (NewGitHelper env).EnsureRepository m.repo with
    | some err => rw [checkRepository_ensure_failed env clock m stateStore err he]; exact ⟨rfl, rfl⟩
    | none =>
      cases hf : (NewGitHelper env).Fetch m.repo with
      | some err =>
        rw [checkRepository_fetch_failed env clock m stateStore err he hf]; exact ⟨rfl, rfl⟩
      | none =>
        rw [checkRepository_resolved env clock m stateStore currentHash he hf hhash]
        simp [hstored, hsame]
  refine ⟨key.1, key.2, ?_⟩
  rw [key.2]
  exact hstored

/-- C7: when `EnsureRepository`, `Fetch` or `GetHash` fails, `checkRepository` returns an
error, the state store is as it was and the monitor, its event slot included, is
unchanged. -/
theorem checkRepository_error (env : GitEnv) (clock : Clock) (m : Monitor) (stateStore : Store)
    (hfail : (NewGitHelper env).EnsureRepository m.repo ≠ none ∨
      (NewGitHelper env).Fetch m.repo ≠ none ∨
      ∃ err, (NewGitHelper env).GetHash m.repo.Branch = .error err) :
    (∃ err, (m.checkRepository env clock stateStore).outcome = .returned (some err)) ∧
    (m.checkRepository env clock stateStore).store = stateStore ∧
    (m.checkRepository env clock stateStore).monitor = m := by
  cases he : (NewGitHelper env).EnsureRepository m.repo with
  | some err =>
    rw [checkRepository_ensure_failed env clock m stateStore err he]
    exact ⟨⟨_, rfl⟩, rfl, rfl⟩
  | none =>
    cases hf : (NewGitHelper env).Fetch m.repo with
    | some err =>
      rw [checkRepository_fetch_failed env clock m stateStore err he hf]
      exact ⟨⟨_, rfl⟩, rfl, rfl⟩
    | none =>
      cases hh : (NewGitHelper env).GetHash m.repo.Branch with
      | error err =>
        rw [checkRepository_hash_failed env clock m stateStore err he hf hh]
        exact ⟨⟨_, rfl⟩, rfl, rfl⟩
      | ok h =>
        rcases hfail with h1 | h1 | ⟨err, h1⟩
        · exact absurd he h1
        · exact absurd hf h1
        · rw [hh] at h1
          cases h1

theorem State.GetRepository_not_found (s : State) (name : Str)
    (h : (s.GetRepository name).2 = false) : (s.GetRepository name).1 = {} := by
  unfold State.GetRepository at h ⊢
  cases hm : s.Repositories with
  | none => rfl
  | some m =>
    rw [hm] at h
    cases hl : m.lookup name with
    | none => simp [hl]
    | some rs => simp [hl] at h

theorem changedFilesFor_never_seen (helper : GitHelper) (repo : Repository)
    (repoState : RepositoryState) (ok : Bool) (currentHash : Str)
    (h : ok = false ∨ repoState.CurrentHash = []) :
    changedFilesFor helper repo repoState ok currentHash = repo.WatchPaths := by
  unfold changedFilesFor
  rcases h with h | h
  · simp [h]
  · simp [h]

theorem changedFilesFor_diffed (helper : GitHelper) (repo : Repository)
    (repoState : RepositoryState) (currentHash : Str)
    (hold : repoState.CurrentHash ≠ [])
    (hdiff : (helper.env.diff repoState.CurrentHash currentHash).err = none) :
    changedFilesFor helper repo repoState true currentHash =
      (changedFilesOf (helper.env.diff repoState.CurrentHash currentHash).output).filter
        (fun c => repo.WatchPaths.any (fun w => matchesPath c w)) := by
  have h1 :=
    GetChangedFiles_eq_filter helper repoState.CurrentHash currentHash repo.WatchPaths hold hdiff
  unfold changedFilesFor
  simp [hold, h1]

theorem Chan.trySend_room {α : Type} (c : Chan α) (v : α) (h : c.buf.length < c.cap) :
    (c.trySend v).1 = { c with buf := c.buf ++ [v] } := by
  simp [Chan.trySend, h]

theorem Chan.trySend_full {α : Type} (c : Chan α) (v : α) (h : c.cap ≤ c.buf.length) :
    (c.trySend v).1 = c := by
  simp [Chan.trySend, Nat.not_lt.2 h]

theorem Chan.trySend_cap {α : Type} (c : Chan α) (v : α) : (c.trySend v).1.cap = c.cap := by
  unfold Chan.trySend
  split <;> rfl

theorem Chan.trySend_length_le {α : Type} (c : Chan α) (v : α) (h : c.buf.length ≤ c.cap) :
    (c.trySend v).1.buf.length ≤ c.cap := by
  unfold Chan.trySend
  split
  · simp
    omega
  · exact h

/-- The ways a check cycle ends: nothing changed, or the new commit was stored and the
event offered to the event slot. -/
theorem checkRepository_cases (env : GitEnv) (clock : Clock) (m : Monitor) (stateStore : Store) :
    ((m.checkRepository env clock stateStore).store = stateStore ∧
      (m.checkRepository env clock stateStore).monitor = m) ∨
    ∃ currentHash event stateStore',
      (NewGitHelper env).GetHash m.repo.Branch = .ok currentHash ∧
      stateStore.UpdateRepository m.repo.Name
        { LastFetch := clock.lastFetch, CurrentHash := currentHash } clock.lastUpdated =
          some stateStore' ∧
      event.RepositoryName = m.repo.Name ∧ event.NewHash = currentHash ∧
      event.OldHash = (stateStore.GetRepository m.repo.Name).1.CurrentHash ∧
      event.Files ≠ [] ∧
      m.checkRepository env clock stateStore =
        ⟨.returned none, { m with eventChan := (m.eventChan.trySend event).1 }, stateStore'⟩ := by
  cases he : (NewGitHelper env).EnsureRepository m.repo with
  | some err =>
    rw [checkRepository_ensure_failed env clock m stateStore err he]
    exact Or.inl ⟨rfl, rfl⟩
  | none =>
    cases hf : (NewGitHelper env).Fetch m.repo with
    | some err =>
      rw [checkRepository_fetch_failed env clock m stateStore err he hf]
      exact Or.inl ⟨rfl, rfl⟩
    | none =>
      cases hh : (NewGitHelper env).GetHash m.repo.Branch with
      | error err =>
        rw [checkRepository_hash_failed env clock m stateStore err he hf hh]
        exact Or.inl ⟨rfl, rfl⟩
      | ok currentHash =>
        rw [checkRepository_resolved env clock m stateStore currentHash he hf hh]
        split
        · split
          · rename_i hlen
            cases hu : stateStore.UpdateRepository m.repo.Name
                { LastFetch := clock.lastFetch, CurrentHash := currentHash }
                clock.lastUpdated with
            | none => exact Or.inl ⟨rfl, rfl⟩
            | some stateStore' =>
              refine Or.inr ⟨currentHash, _, stateStore', rfl, hu, rfl, rfl, rfl, ?_, rfl⟩
              intro hnil
              simp only at hnil
              rw [hnil] at hlen
              simp at hlen
          · exact Or.inl ⟨rfl, rfl⟩
        · exact Or.inl ⟨rfl, rfl⟩

/-- C3, as the code has it: when the remote commit differs from the stored watermark and no
changed path of the diff matches a watch pattern, `checkRepository` returns without error,
puts no event in the event slot and leaves the state store unchanged: the stored watermark
stays at the previous commit. -/
theorem checkRepository_no_match (env : GitEnv) (clock : Clock) (m : Monitor)
    (stateStore : Store) (rs : RepositoryState) (currentHash : Str)
    (he : (NewGitHelper env).EnsureRepository m.repo = none)
    (hf : (NewGitHelper env).Fetch m.repo = none)
    (hh : (NewGitHelper env).GetHash m.repo.Branch = .ok currentHash)
    (hstored : stateStore.GetRepository m.repo.Name = (rs, true))
    (hold : rs.CurrentHash ≠ [])
    (hmoved : rs.CurrentHash ≠ currentHash)
    (hdiff : (env.diff rs.CurrentHash currentHash).err = none)
    (hnone : ∀ c ∈ changedFilesOf (env.diff rs.CurrentHash currentHash).output,
      ∀ w ∈ m.repo.WatchPaths, matchesPath c w = false) :
    (m.checkRepository env clock stateStore).outcome = .returned none ∧
    (m.checkRepository env clock stateStore).monitor = m ∧
    (m.checkRepository env clock stateStore).store = stateStore ∧
    ((m.checkRepository env clock stateStore).store.GetRepository m.repo.Name).1.CurrentHash =
      rs.CurrentHash := by
  have hfiles : changedFilesFor (NewGitHelper env) m.repo rs true currentHash = [] := by
    rw [changedFilesFor_diffed (NewGitHelper env) m.repo rs currentHash hold hdiff]
    rw [List.filter_eq_nil_iff]
    intro c hc
    simp only [NewGitHelper] at hc
    simp only [List.any_eq_true, not_exists, not_and, Bool.not_eq_true]
    intro w hw
    exact hnone c hc w hw
  rw [checkRepository_resolved env clock m stateStore currentHash he hf hh]
  simp [hstored, hmoved, hfiles]

/-- C6: for a repository the state store has never seen, or holds with an empty commit, a
first check (event slot as `NewMonitor` made it, empty with room for one) that succeeds
for a validated repository (watch paths not empty) puts in the event slot the one event
whose `Files` are the configured watch paths, whose `OldHash` is empty and whose
`NewHash` is the resolved commit, and stores that commit as the watermark. -/
theorem checkRepository_first_check (env : GitEnv) (clock : Clock) (m : Monitor)
    (stateStore : Store) (currentHash : Str)
    (he : (NewGitHelper env).EnsureRepository m.repo = none)
    (hf : (NewGitHelper env).Fetch m.repo = none)
    (hh : (NewGitHelper env).GetHash m.repo.Branch = .ok currentHash)
    (hnever : (stateStore.GetRepository m.repo.Name).2 = false ∨
      ((stateStore.GetRepository m.repo.Name).1.CurrentHash = [] ∧ currentHash ≠ []))
    (hmap : stateStore.state.Repositories.isSome = true)
    (hwatch : m.repo.WatchPaths ≠ [])
    (hslot : m.eventChan = Chan.make 1) :
    (m.checkRepository env clock stateStore).outcome = .returned none ∧
    (m.checkRepository env clock stateStore).monitor.eventChan.buf =
      [{ RepositoryName := m.repo.Name, Files := m.repo.WatchPaths, OldHash := [],
         NewHash := currentHash, DetectedAt := clock.detectedAt }] ∧
    (m.checkRepository env clock stateStore).store.GetRepository m.repo.Name =
      ({ Name := m.repo.Name, LastFetch := clock.lastFetch, CurrentHash := currentHash },
        true) := by
  have hfiles : changedFilesFor (NewGitHelper env) m.repo
      (stateStore.GetRepository m.repo.Name).1 (stateStore.GetRepository m.repo.Name).2
      currentHash = m.repo.WatchPaths := by
    apply changedFilesFor_never_seen
    rcases hnever with h | h
    · exact Or.inl h
    · exact Or.inr h.1
  have hold : (stateStore.GetRepository m.repo.Name).1.CurrentHash = [] := by
    rcases hnever with h | h
    · have := State.GetRepository_not_found stateStore.state m.repo.Name h
      unfold Store.GetRepository
      rw [this]
    · exact h.1
  have hcond : (!(stateStore.GetRepository m.repo.Name).2 ||
      decide ((stateStore.GetRepository m.repo.Name).1.CurrentHash ≠ currentHash)) = true := by
    rcases hnever with h | h
    · simp [h]
    · have : ¬ (stateStore.GetRepository m.repo.Name).1.CurrentHash = currentHash := by
        rw [h.1]
        exact fun e => h.2 e.symm
      simp [this]
  have hlen : (m.repo.WatchPaths).length > 0 := List.length_pos.2 hwatch
  obtain ⟨s', hs', hget⟩ := Store.UpdateRepository_isSome stateStore m.repo.Name
    { LastFetch := clock.lastFetch, CurrentHash := currentHash } clock.lastUpdated hmap
  rw [checkRepository_resolved env clock m stateStore currentHash he hf hh]
  rw [if_pos hcond, hfiles, if_pos hlen, hs', hold, hslot]
  exact ⟨rfl, rfl, hget⟩

/-- C4, as the code has it: after every check cycle either neither the state store nor the
monitor (its event slot included) was changed, or the new commit is stored and the event
for it, with a change set that is not empty, was offered to the event slot: it is in the
slot when the slot had room, and it is dropped, the slot unchanged, when the slot was
occupied. -/
theorem checkRepository_store_then_offer (env : GitEnv) (clock : Clock) (m : Monitor)
    (stateStore : Store) :
    ((m.checkRepository env clock stateStore).store = stateStore ∧
      (m.checkRepository env clock stateStore).monitor = m) ∨
    ∃ currentHash event,
      (NewGitHelper env).GetHash m.repo.Branch = .ok currentHash ∧
      event.RepositoryName = m.repo.Name ∧ event.NewHash = currentHash ∧ event.Files ≠ [] ∧
      (m.checkRepository env clock stateStore).outcome = .returned none ∧
      (m.checkRepository env clock stateStore).store.GetRepository m.repo.Name =
        ({ Name := m.repo.Name, LastFetch := clock.lastFetch, CurrentHash := currentHash },
          true) ∧
      (m.eventChan.buf.length < m.eventChan.cap →
        (m.checkRepository env clock stateStore).monitor.eventChan.buf =
          m.eventChan.buf ++ [event]) ∧
      (m.eventChan.cap ≤ m.eventChan.buf.length →
        (m.checkRepository env clock stateStore).monitor.eventChan = m.eventChan) := by
  rcases checkRepository_cases env clock m stateStore with h | ⟨h, ev, s', hh, hu, h1, h2, -, h3, hr⟩
  · exact Or.inl h
  · refine Or.inr ⟨h, ev, hh, h1, h2, h3, ?_, ?_, ?_, ?_⟩
    · rw [hr]
    · rw [hr]
      exact Store.UpdateRepository_get stateStore s' m.repo.Name _ _ hu
    · intro hroom
      rw [hr]
      simp only [Chan.trySend_room m.eventChan ev hroom]
    · intro hfull
      rw [hr]
      simp only [Chan.trySend_full m.eventChan ev hfull]

/-- C9: the event slot of a monitor (capacity one, as `NewMonitor` makes it) holds at most
one event after every check cycle, and a cycle that finds an event waiting in the slot
leaves the slot as it was, whatever the cycle produced: the new event is dropped. -/
theorem checkRepository_event_slot (env : GitEnv) (clock : Clock) (m : Monitor)
    (stateStore : Store) (hcap : m.eventChan.cap = 1) (hle : m.eventChan.buf.length ≤ 1) :
    (m.checkRepository env clock stateStore).monitor.eventChan.cap = 1 ∧
    (m.checkRepository env clock stateStore).monitor.eventChan.buf.length ≤ 1 ∧
    (∀ pending, m.eventChan.buf = [pending] →
      (m.checkRepository env clock stateStore).monitor.eventChan = m.eventChan ∧
      (m.checkRepository env clock stateStore).monitor.eventChan.buf = [pending]) := by
  rcases checkRepository_cases env clock m stateStore with h | ⟨h, ev, s', -, -, -, -, -, -, hr⟩
  · rw [h.2]
    exact ⟨hcap, hle, fun pending hp => ⟨rfl, hp⟩⟩
  · rw [hr]
    refine ⟨?_, ?_, ?_⟩
    · simp only [Chan.trySend_cap, hcap]
    · have := Chan.trySend_length_le m.eventChan ev (by omega)
      simpa [hcap] using this
    · intro pending hp
      have hfull : m.eventChan.cap ≤ m.eventChan.buf.length := by simp [hcap, hp]
      have hsend := Chan.trySend_full m.eventChan ev hfull
      show (m.eventChan.trySend ev).1 = m.eventChan ∧ (m.eventChan.trySend ev).1.buf = [pending]
      rw [hsend]
      exact ⟨rfl, hp⟩

/-! ## Forced checks -/

theorem ForceCheck_iterate_succ (m : Monitor) (hcap : m.forceChan.cap = 1) (n : Nat) :
    Monitor.ForceCheck^[n + 1] m = m.ForceCheck := by
  have hidem : ∀ k : Monitor, k.forceChan.cap = 1 → k.ForceCheck.ForceCheck = k.ForceCheck := by
    intro k hk
    unfold Monitor.ForceCheck Chan.trySend
    by_cases h : k.forceChan.buf.length < k.forceChan.cap
    · have : k.forceChan.buf.length = 0 := by omega
      simp [hk, this]
    · simp [h]
  induction n with
  | zero => rfl
  | succ n ih =>
    rw [Function.iterate_succ_apply', ih]
    exact hidem m hcap

/-- C8: on a monitor whose forced-check channel has capacity one, as `NewMonitor` makes it,
`ForceCheck` is idempotent, any number of calls, one or more, equals one call, and at most
one forced check is pending afterwards; when none was pending before, exactly one is
pending afterwards: the poller takes it, finds the monitor as it was before the calls, and
has no second one to take. -/
theorem ForceCheck_coalesces (m : Monitor) (hcap : m.forceChan.cap = 1)
    (hle : m.forceChan.buf.length ≤ 1) (n : Nat) :
    m.ForceCheck.ForceCheck = m.ForceCheck ∧
    Monitor.ForceCheck^[n + 1] m = m.ForceCheck ∧
    (Monitor.ForceCheck^[n + 1] m).forceChan.buf.length ≤ 1 ∧
    (m.forceChan.buf = [] →
      (Monitor.ForceCheck^[n + 1] m).forceChan.buf = [()] ∧
      (Monitor.ForceCheck^[n + 1] m).takeForce = some m ∧
      m.takeForce = none) := by
  have h1 := ForceCheck_iterate_succ m hcap 1
  have hn := ForceCheck_iterate_succ m hcap n
  refine ⟨h1, hn, ?_, ?_⟩
  · rw [hn]
    unfold Monitor.ForceCheck Chan.trySend
    by_cases h : m.forceChan.buf.length < m.forceChan.cap
    · have : m.forceChan.buf.length = 0 := by omega
      simp [hcap, this]
    · simpa [h] using hle
  · intro hempty
    rw [hn]
    obtain ⟨repo, ec, ⟨cap, buf⟩⟩ := m
    simp only at hcap hempty
    subst hcap hempty
    exact ⟨rfl, rfl, rfl⟩

/-! ## The scenarios, evaluated -/

/-- The scenario of the specification: watch pattern `src/`, previous commit `A`, new
commit `B` and the diff `[src/main.go, docs/readme.md]` give the filtered change set
`[src/main.go]`. -/
theorem GetChangedFiles_filtered_witness :
    "A".toList ≠ [] ∧
    ((NewGitHelper (envAtB "src/main.go\ndocs/readme.md\n".toList)).env.diff
      "A".toList "B".toList).err = none ∧
    (NewGitHelper (envAtB "src/main.go\ndocs/readme.md\n".toList)).GetChangedFiles
      "A".toList "B".toList ["src/".toList] = .ok ["src/main.go".toList] := by
  refine ⟨by decide, by decide, ?_⟩
  obtain ⟨filtered, h1, h2, -⟩ :=
    GetChangedFiles_filtered (NewGitHelper (envAtB "src/main.go\ndocs/readme.md\n".toList))
      "A".toList "B".toList ["src/".toList] (by decide) (by decide)
  rw [h1, h2]
  exact congrArg Except.ok (by decide)

/-- The failing input of C2: watch pattern `/`, previous commit `A`, new commit `B`, and a
diff that lists no path (`git diff` prints nothing). `GetChangedFiles` returns the one
empty path, and the check cycle emits an event for it and moves the watermark. -/
theorem GetChangedFiles_empty_diff_witness :
    "A".toList ≠ [] ∧
    ((NewGitHelper (envAtB [])).env.diff "A".toList "B".toList).err = none ∧
    TrimSpace ((NewGitHelper (envAtB [])).env.diff "A".toList "B".toList).output = [] ∧
    (NewGitHelper (envAtB [])).GetChangedFiles "A".toList "B".toList ["/".toList] =
      .ok [[]] ∧
    ((NewMonitor svcAWholeTree).checkRepository (envAtB []) clockAt10
      (storeAt "A".toList)).monitor.eventChan.buf =
        [{ RepositoryName := "svc-a".toList, Files := [[]], OldHash := "A".toList,
           NewHash := "B".toList, DetectedAt := 12 }] ∧
    (((NewMonitor svcAWholeTree).checkRepository (envAtB []) clockAt10
      (storeAt "A".toList)).store.GetRepository "svc-a".toList).1.CurrentHash = "B".toList :=
  ⟨by decide, rfl, rfl,
    (GetChangedFiles_empty_diff (NewGitHelper (envAtB [])) "A".toList "B".toList
      ["/".toList] (by decide) rfl rfl).2.1 ⟨"/".toList, List.mem_singleton.2 rfl, Or.inr rfl⟩,
    by decide, by decide⟩

/-- Counterexample to C3 as stated: watch pattern `src/`, stored commit `A`, remote commit
`B`, diff `[docs/readme.md]`. The filtered change set is empty and the stored watermark
after the cycle is still `A`, not `B`. -/
theorem checkRepository_no_match_counterexample :
    (NewGitHelper (envAtB "docs/readme.md\n".toList)).GetHash svcA.Branch = .ok "B".toList ∧
    ((storeAt "A".toList).GetRepository svcA.Name).1.CurrentHash = "A".toList ∧
    (NewGitHelper (envAtB "docs/readme.md\n".toList)).GetChangedFiles
      "A".toList "B".toList svcA.WatchPaths = .ok [] ∧
    (((NewMonitor svcA).checkRepository (envAtB "docs/readme.md\n".toList) clockAt10
      (storeAt "A".toList)).store.GetRepository svcA.Name).1.CurrentHash = "A".toList ∧
    ¬ (((NewMonitor svcA).checkRepository (envAtB "docs/readme.md\n".toList) clockAt10
      (storeAt "A".toList)).store.GetRepository svcA.Name).1.CurrentHash = "B".toList := by
  refine ⟨rfl, rfl, rfl, ?_, ?_⟩ <;> decide

/-- Scenario of C3: with the diff `[docs/readme.md]` the cycle returns without error, the
event slot stays empty and the state store is as it was. -/
theorem checkRepository_no_match_witness :
    ((NewMonitor svcA).checkRepository (envAtB "docs/readme.md\n".toList) clockAt10
      (storeAt "A".toList)).outcome = .returned none ∧
    ((NewMonitor svcA).checkRepository (envAtB "docs/readme.md\n".toList) clockAt10
      (storeAt "A".toList)).monitor = NewMonitor svcA ∧
    ((NewMonitor svcA).checkRepository (envAtB "docs/readme.md\n".toList) clockAt10
      (storeAt "A".toList)).store = storeAt "A".toList ∧
    (((NewMonitor svcA).checkRepository (envAtB "docs/readme.md\n".toList) clockAt10
      (storeAt "A".toList)).store.GetRepository (NewMonitor svcA).repo.Name).1.CurrentHash =
        (entryAt "A".toList).CurrentHash :=
  checkRepository_no_match (envAtB "docs/readme.md\n".toList) clockAt10 (NewMonitor svcA)
    (storeAt "A".toList) (entryAt "A".toList) "B".toList rfl rfl rfl (by decide) (by decide)
    (by decide) rfl (by decide)

/-- Counterexample to C4 as stated: with an unconsumed event in the slot, stored commit `A`,
remote commit `B` and the diff `[src/main.go]`, the change set is not empty and the
watermark advances to `B`, yet the slot still holds only the old event: the event for `B`
was not enqueued. -/
theorem checkRepository_atomic_counterexample :
    (NewGitHelper (envAtB "src/main.go\n".toList)).GetChangedFiles
      "A".toList "B".toList svcA.WatchPaths = .ok ["src/main.go".toList] ∧
    ((storeAt "A".toList).GetRepository svcA.Name).1.CurrentHash = "A".toList ∧
    ((monitorSlotFull.checkRepository (envAtB "src/main.go\n".toList) clockAt10
      (storeAt "A".toList)).store.GetRepository svcA.Name).1.CurrentHash = "B".toList ∧
    (monitorSlotFull.checkRepository (envAtB "src/main.go\n".toList) clockAt10
      (storeAt "A".toList)).store ≠ storeAt "A".toList ∧
    (monitorSlotFull.checkRepository (envAtB "src/main.go\n".toList) clockAt10
      (storeAt "A".toList)).monitor.eventChan.buf = [eventForA] ∧
    eventForA.NewHash ≠ "B".toList := by
  refine ⟨rfl, rfl, ?_, ?_, ?_, ?_⟩ <;> decide

/-- Scenario of C5: the store holds `B` for "svc-a" and the remote is at `B`. -/
theorem checkRepository_same_commit_witness :
    (NewGitHelper (envAtB [])).GetHash (NewMonitor svcA).repo.Branch = .ok "B".toList ∧
    (storeAt "B".toList).GetRepository (NewMonitor svcA).repo.Name =
      (entryAt "B".toList, true) ∧
    ((NewMonitor svcA).checkRepository (envAtB []) clockAt10 (storeAt "B".toList)).monitor =
      NewMonitor svcA ∧
    ((NewMonitor svcA).checkRepository (envAtB []) clockAt10 (storeAt "B".toList)).store =
      storeAt "B".toList ∧
    ((NewMonitor svcA).checkRepository (envAtB []) clockAt10
      (storeAt "B".toList)).store.GetRepository (NewMonitor svcA).repo.Name =
        (entryAt "B".toList, true) :=
  ⟨rfl, by decide,
    checkRepository_same_commit (envAtB []) clockAt10 (NewMonitor svcA) (storeAt "B".toList)
      (entryAt "B".toList) "B".toList rfl (by decide) rfl⟩

/-- Scenario of C6: the first check of "svc-a" against a store that never saw it. -/
theorem checkRepository_first_check_witness :
    (storeFresh.GetRepository (NewMonitor svcA).repo.Name).2 = false ∧
    ((NewMonitor svcA).checkRepository (envAtB []) clockAt10 storeFresh).outcome =
      .returned none ∧
    ((NewMonitor svcA).checkRepository (envAtB []) clockAt10 storeFresh).monitor.eventChan.buf =
      [{ RepositoryName := "svc-a".toList, Files := ["src/".toList], OldHash := [],
         NewHash := "B".toList, DetectedAt := 12 }] ∧
    ((NewMonitor svcA).checkRepository (envAtB []) clockAt10 storeFresh).store.GetRepository
      "svc-a".toList =
        ({ Name := "svc-a".toList, LastFetch := 10, CurrentHash := "B".toList }, true) :=
  ⟨by decide,
    checkRepository_first_check (envAtB []) clockAt10 (NewMonitor svcA) storeFresh "B".toList
      rfl rfl rfl (Or.inl (by decide)) rfl (by decide) rfl⟩

/-- Scenario of C7: the fetch fails. -/
theorem checkRepository_error_witness :
    (NewGitHelper envFetchFails).Fetch (NewMonitor svcA).repo ≠ none ∧
    (∃ err, ((NewMonitor svcA).checkRepository envFetchFails clockAt10
      (storeAt "A".toList)).outcome = .returned (some err)) ∧
    ((NewMonitor svcA).checkRepository envFetchFails clockAt10 (storeAt "A".toList)).store =
      storeAt "A".toList ∧
    ((NewMonitor svcA).checkRepository envFetchFails clockAt10 (storeAt "A".toList)).monitor =
      NewMonitor svcA :=
  ⟨by decide,
    checkRepository_error envFetchFails clockAt10 (NewMonitor svcA) (storeAt "A".toList)
      (Or.inr (Or.inl (by decide)))⟩

/-- Scenario of C8: three calls of `ForceCheck` on a new monitor. -/
theorem ForceCheck_coalesces_witness :
    (NewMonitor svcA).forceChan.cap = 1 ∧ (NewMonitor svcA).forceChan.buf = [] ∧
    (NewMonitor svcA).ForceCheck.ForceCheck = (NewMonitor svcA).ForceCheck ∧
    Monitor.ForceCheck^[2 + 1] (NewMonitor svcA) = (NewMonitor svcA).ForceCheck ∧
    (Monitor.ForceCheck^[2 + 1] (NewMonitor svcA)).forceChan.buf.length ≤ 1 ∧
    ((NewMonitor svcA).forceChan.buf = [] →
      (Monitor.ForceCheck^[2 + 1] (NewMonitor svcA)).forceChan.buf = [()] ∧
      (Monitor.ForceCheck^[2 + 1] (NewMonitor svcA)).takeForce = some (NewMonitor svcA) ∧
      (NewMonitor svcA).takeForce = none) :=
  ⟨rfl, rfl, ForceCheck_coalesces (NewMonitor svcA) rfl (by decide) 2⟩

/-- Scenario of C9: a cycle that stores commit `B` while the event for `A` is still in the
slot. -/
theorem checkRepository_event_slot_witness :
    monitorSlotFull.eventChan.cap = 1 ∧ monitorSlotFull.eventChan.buf = [eventForA] ∧
    ((monitorSlotFull.checkRepository (envAtB "src/main.go\n".toList) clockAt10
      (storeAt "A".toList)).store.GetRepository svcA.Name).1.CurrentHash = "B".toList ∧
    (monitorSlotFull.checkRepository (envAtB "src/main.go\n".toList) clockAt10
      (storeAt "A".toList)).monitor.eventChan.buf = [eventForA] :=
  ⟨rfl, rfl, by decide,
    ((checkRepository_event_slot (envAtB "src/main.go\n".toList) clockAt10 monitorSlotFull
      (storeAt "A".toList) rfl (by decide)).2.2 eventForA rfl).2⟩

/-! ## Loading and closing the state store -/

theorem Store.Load_of_read_error (codec : JsonCodec) (disk : Disk) (s : Store) (err : Str)
    (h : disk.ReadFile s.filePath = .error err) :
    s.Load codec disk = (some ("failed to read state file: ".toList ++ err), s) := by
  simp only [Store.Load, h]

theorem Store.Load_of_parse_error (codec : JsonCodec) (disk : Disk) (s : Store)
    (data err : Str) (h : disk.ReadFile s.filePath = .ok data)
    (hp : codec.unmarshal data = .error err) :
    s.Load codec disk = (some ("failed to parse state file: ".toList ++ err), s) := by
  simp only [Store.Load, h, hp]

/-- C11: when the state directory can be made and the state file is missing or its content
is not accepted by `json.Unmarshal`, `NewStore` returns no error and a store whose state
is the new state: version "1.0" and an empty, initialised repository map. `Load` itself,
on every store of that file, returns the error and leaves the store as it was. -/
theorem NewStore_without_state_file (codec : JsonCodec) (disk : Disk) (now : Time)
    (stateDir : Str) (hdir : disk.mkdirAllErr = none)
    (hfile : (∃ err, disk.ReadFile (filepathJoin stateDir "state.json".toList) = .error err) ∨
      ∃ data err, disk.ReadFile (filepathJoin stateDir "state.json".toList) = .ok data ∧
        codec.unmarshal data = .error err) :
    (∃ store, NewStore codec disk now stateDir = .ok store ∧
      store.state.Version = "1.0".toList ∧ store.state.Repositories = some [] ∧
      store.state = NewState now ∧
      store.filePath = filepathJoin stateDir "state.json".toList) ∧
    (∀ s : Store, s.filePath = filepathJoin stateDir "state.json".toList →
      ∃ err, s.Load codec disk = (some err, s)) := by
  have hload : ∀ s : Store, s.filePath = filepathJoin stateDir "state.json".toList →
      ∃ err, s.Load codec disk = (some err, s) := by
    intro s hs
    rcases hfile with ⟨err, h⟩ | ⟨data, err, h, hp⟩
    · rw [← hs] at h
      exact ⟨_, Store.Load_of_read_error codec disk s err h⟩
    · rw [← hs] at h
      exact ⟨_, Store.Load_of_parse_error codec disk s data err h hp⟩
  refine ⟨?_, hload⟩
  obtain ⟨err, he⟩ := hload
    { state := {}, filePath := filepathJoin stateDir "state.json".toList, autoSave := true } rfl
  refine ⟨{ state := NewState now, filePath := filepathJoin stateDir "state.json".toList,
            autoSave := true }, ?_, rfl, rfl, rfl, rfl⟩
  simp only [NewStore, hdir, he]

theorem Store.Save_ok (codec : JsonCodec) (disk : Disk) (s : Store)
    (h : (s.Save codec disk).1 = none) :
    ∃ data, codec.marshalIndent s.state = .ok data ∧
      (s.Save codec disk).2.ReadFile s.filePath = .ok data := by
  unfold Store.Save at h ⊢
  cases hm : codec.marshalIndent s.state with
  | error err => simp [hm] at h
  | ok data =>
    refine ⟨data, rfl, ?_⟩
    simp only [hm] at h ⊢
    unfold Disk.WriteFile at h ⊢
    cases hw : disk.writeErr with
    | some err => simp [hw] at h
    | none => simp [Disk.ReadFile, List.lookup]

/-- C12: for every store, with a debounced save pending or not, `Close` stops the timer and
does one `Save` of the store; when it returns without error the state file holds the
marshalled in-memory state, the state itself is as before, and no debounced save is
pending: the timer's callback, were it to fire, would write nothing. -/
theorem Store.Close_flushes (codec : JsonCodec) (disk : Disk) (s : Store) :
    (s.Close codec disk).store.state = s.state ∧
    (s.Close codec disk).store.saveTimer = s.saveTimer.map Timer.Stop ∧
    (∀ t, (s.Close codec disk).store.saveTimer = some t → t.pending = false) ∧
    (s.Close codec disk).err = ((s.Close codec disk).store.Save codec disk).1 ∧
    (s.Close codec disk).disk = ((s.Close codec disk).store.Save codec disk).2 ∧
    ((s.Close codec disk).err = none →
      (∃ data, codec.marshalIndent s.state = .ok data ∧
        (s.Close codec disk).disk.ReadFile s.filePath = .ok data) ∧
      (s.Close codec disk).store.saveTimerFires codec (s.Close codec disk).disk =
        ((s.Close codec disk).store, (s.Close codec disk).disk)) := by
  obtain ⟨state, filePath, autoSave, saveTimer⟩ := s
  cases saveTimer with
  | none =>
    refine ⟨rfl, rfl, ?_, rfl, rfl, ?_⟩
    · intro t ht
      simp [Store.Close] at ht
    · intro h
      exact ⟨Store.Save_ok codec disk _ h, rfl⟩
  | some t =>
    refine ⟨rfl, rfl, ?_, rfl, rfl, ?_⟩
    · intro t' ht
      simp only [Store.Close, Option.some.injEq] at ht
      rw [← ht]
      rfl
    · intro h
      exact ⟨Store.Save_ok codec disk _ h, rfl⟩

/-! ## Validation of the configuration -/

theorem validateRepository_accepts_iff (poll : Str) (i : Nat) (repo : Repository) :
    (validateRepository poll i repo).2 = none ↔ ¬ repositoryInvalid repo := by
  unfold validateRepository repositoryInvalid
  by_cases h1 : repo.Name = []
  · rw [if_pos h1]
    exact ⟨(fun h => nomatch h), fun h => absurd (Or.inl h1) h⟩
  rw [if_neg h1]
  by_cases h2 : repo.URL = []
  · rw [if_pos h2]
    exact ⟨(fun h => nomatch h), fun h => absurd (Or.inr (Or.inl h2)) h⟩
  rw [if_neg h2]
  dsimp only
  by_cases h3 : repo.WatchPaths.length = 0
  · rw [if_pos h3]
    have h3' : repo.WatchPaths = [] := List.length_eq_zero.1 h3
    exact ⟨(fun h => nomatch h), fun h => absurd (Or.inr (Or.inr (Or.inl h3'))) h⟩
  rw [if_neg h3]
  have h3' : ¬ repo.WatchPaths = [] := fun h => h3 (List.length_eq_zero.2 h)
  by_cases h4 : repo.Action.Type_ = []
  · rw [if_pos h4]
    exact ⟨(fun h => nomatch h), fun h => absurd (Or.inr (Or.inr (Or.inr (Or.inl h4)))) h⟩
  rw [if_neg h4]
  by_cases h5 : repo.Action.Type_ = "shell".toList ∧ repo.Action.Script = []
  · rw [if_pos h5]
    exact ⟨(fun h => nomatch h),
      fun h => absurd (Or.inr (Or.inr (Or.inr (Or.inr (Or.inl h5))))) h⟩
  rw [if_neg h5]
  by_cases h6 : repo.Action.Type_ = "webhook".toList ∧ repo.Action.URL = []
  · rw [if_pos h6]
    exact ⟨(fun h => nomatch h),
      fun h => absurd (Or.inr (Or.inr (Or.inr (Or.inr (Or.inr h6))))) h⟩
  rw [if_neg h6]
  refine ⟨fun _ => ?_, fun _ => rfl⟩
  rintro (h | h | h | h | h | h)
  · exact h1 h
  · exact h2 h
  · exact h3' h
  · exact h4 h
  · exact h5 h
  · exact h6 h

theorem validateRepository_accepted (poll : Str) (i : Nat) (repo : Repository)
    (h : (validateRepository poll i repo).2 = none) :
    (validateRepository poll i repo).1 = repositoryWithDefaults poll repo := by
  have hvalid := (validateRepository_accepts_iff poll i repo).1 h
  unfold repositoryInvalid at hvalid
  have h1 : ¬ repo.Name = [] := fun e => hvalid (Or.inl e)
  have h2 : ¬ repo.URL = [] := fun e => hvalid (Or.inr (Or.inl e))
  have h3 : ¬ repo.WatchPaths.length = 0 :=
    fun e => hvalid (Or.inr (Or.inr (Or.inl (List.length_eq_zero.1 e))))
  have h4 : ¬ repo.Action.Type_ = [] := fun e => hvalid (Or.inr (Or.inr (Or.inr (Or.inl e))))
  have h5 : ¬ (repo.Action.Type_ = "shell".toList ∧ repo.Action.Script = []) :=
    fun e => hvalid (Or.inr (Or.inr (Or.inr (Or.inr (Or.inl e)))))
  have h6 : ¬ (repo.Action.Type_ = "webhook".toList ∧ repo.Action.URL = []) :=
    fun e => hvalid (Or.inr (Or.inr (Or.inr (Or.inr (Or.inr e)))))
  unfold validateRepository
  rw [if_neg h1, if_neg h2]
  dsimp only
  rw [if_neg h3, if_neg h4, if_neg h5, if_neg h6]
  unfold repositoryWithDefaults orDefault
  by_cases hb : repo.Branch = [] <;> by_cases ha : repo.Auth.Type_ = [] <;>
    by_cases hp : repo.PollInterval = [] <;> by_cases ht : repo.Action.Timeout = [] <;>
    simp only [if_pos, if_neg, hb, ha, hp, ht, not_false_eq_true]

theorem validateRepositories_accepts_iff (poll : Str) (i : Nat) (repos : List Repository) :
    (validateRepositories poll i repos).2 = none ↔ ∀ repo ∈ repos, ¬ repositoryInvalid repo := by
  induction repos generalizing i with
  | nil => simp [validateRepositories]
  | cons repo rest ih =>
    have hrepo := validateRepository_accepts_iff poll i repo
    unfold validateRepositories
    cases hv : validateRepository poll i repo with
    | mk repo' err =>
      rw [hv] at hrepo
      cases err with
      | some e =>
        simp only [List.mem_cons, forall_eq_or_imp]
        constructor
        · intro h
          cases h
        · intro h
          exact absurd (hrepo.2 h.1) (by simp)
      | none =>
        simp only [List.mem_cons, forall_eq_or_imp, ih (i + 1)]
        constructor
        · intro h
          exact ⟨hrepo.1 rfl, h⟩
        · intro h
          exact h.2

theorem validateRepositories_accepted (poll : Str) (i : Nat) (repos : List Repository)
    (h : (validateRepositories poll i repos).2 = none) :
    (validateRepositories poll i repos).1 = repos.map (repositoryWithDefaults poll) := by
  induction repos generalizing i with
  | nil => rfl
  | cons repo rest ih =>
    have hacc := validateRepository_accepted poll i repo
    unfold validateRepositories at h ⊢
    cases hv : validateRepository poll i repo with
    | mk repo' err =>
      rw [hv] at hacc h
      cases err with
      | some e => cases h
      | none =>
        have hr : repo' = repositoryWithDefaults poll repo := hacc rfl
        simp only at h ⊢
        rw [ih (i + 1) h, List.map_cons, hr]

theorem validate_accepts_iff (cfg : Config) :
    (Manager.validate cfg).2 = none ↔
      cfg.Repositories ≠ [] ∧ ∀ repo ∈ cfg.Repositories, ¬ repositoryInvalid repo := by
  unfold Manager.validate
  by_cases h : cfg.Repositories = []
  · simp [h]
  · have hlen : ¬ cfg.Repositories.length = 0 := by simpa using h
    simp only [hlen, if_false, validateRepositories_accepts_iff]
    exact ⟨fun hh => ⟨h, hh⟩, fun hh => hh.2⟩

theorem validate_accepted (cfg : Config) (h : (Manager.validate cfg).2 = none) :
    (Manager.validate cfg).1 =
      { cfg with
        Agent := agentDefaults cfg.Agent
        Repositories :=
          cfg.Repositories.map (repositoryWithDefaults (agentDefaults cfg.Agent).PollInterval) } := by
  unfold Manager.validate at h ⊢
  by_cases hl : cfg.Repositories.length = 0
  · simp [hl] at h
  · simp only [hl, if_false] at h ⊢
    rw [validateRepositories_accepted _ _ _ h]

theorem agentDefaults_fields (agent : AgentConfig) :
    (agentDefaults agent).Name = orDefault agent.Name "cd-gun-agent".toList ∧
    (agentDefaults agent).LogLevel = orDefault agent.LogLevel "info".toList ∧
    (agentDefaults agent).StateDir = orDefault agent.StateDir "/var/lib/cd-gun".toList ∧
    (agentDefaults agent).CacheDir = orDefault agent.CacheDir "/var/lib/cd-gun/repos".toList ∧
    (agentDefaults agent).PollInterval = orDefault agent.PollInterval "5m".toList ∧
    (agentDefaults agent).LogFile = agent.LogFile ∧
    (agentDefaults agent).parsedInterval = agent.parsedInterval := by
  obtain ⟨name, level, file, sdir, cdir, poll, parsed⟩ := agent
  unfold agentDefaults orDefault
  by_cases hn : name = [] <;> by_cases hl : level = [] <;> by_cases hs : sdir = [] <;>
    by_cases hc : cdir = [] <;> by_cases hp : poll = [] <;>
    simp only [if_pos, if_neg, hn, hl, hs, hc, hp, not_false_eq_true, and_self]

theorem orDefault_ne_nil (value default : Str) (h : default ≠ []) :
    orDefault value default ≠ [] := by
  unfold orDefault
  split_ifs with hv
  · exact h
  · exact hv

/-- C17: `validate` returns an error exactly when the repository list is empty or some
repository has an empty name, an empty url, an empty watch_paths list, an empty
action.type, the action type "shell" with an empty script, or the action type "webhook"
with an empty url; the valid file of `TestNewManager` is accepted. -/
theorem validate_error_iff (cfg : Config) :
    ((Manager.validate cfg).2 ≠ none ↔
      cfg.Repositories = [] ∨ ∃ repo ∈ cfg.Repositories, repositoryInvalid repo) ∧
    (Manager.validate testConfig).2 = none := by
  refine ⟨?_, by decide⟩
  rw [Ne, validate_accepts_iff]
  constructor
  · intro h
    by_cases hnil : cfg.Repositories = []
    · exact Or.inl hnil
    · right
      by_contra hno
      apply h
      refine ⟨hnil, ?_⟩
      intro repo hr hinv
      exact hno ⟨repo, hr, hinv⟩
  · rintro (h | ⟨repo, hr, hinv⟩) ⟨hne, hall⟩
    · exact hne h
    · exact hall repo hr hinv

theorem MonitorMap.store_keys (ms : MonitorMap) (name : Str) (mon : Monitor) :
    (∀ k, k ∈ (ms.store name mon).map Prod.fst ↔ k = name ∨ k ∈ ms.map Prod.fst) ∧
    ((ms.map Prod.fst).Nodup → ((ms.store name mon).map Prod.fst).Nodup) := by
  induction ms with
  | nil =>
    constructor
    · intro k
      simp only [MonitorMap.store, List.map_cons, List.map_nil, List.mem_singleton,
        List.not_mem_nil, or_false]
    · intro _
      simp only [MonitorMap.store, List.map_cons, List.map_nil, List.nodup_cons,
        List.not_mem_nil, not_false_eq_true, List.nodup_nil, and_self]
  | cons nm rest ih =>
    obtain ⟨name', mon'⟩ := nm
    by_cases h : name' = name
    · subst h
      constructor
      · intro k
        simp only [MonitorMap.store, if_pos, List.map_cons, List.mem_cons]
        tauto
      · intro hnd
        simpa only [MonitorMap.store, if_pos, List.map_cons] using hnd
    · constructor
      · intro k
        simp only [MonitorMap.store, if_neg h, List.map_cons, List.mem_cons, ih.1 k]
        tauto
      · intro hnd
        simp only [List.map_cons, List.nodup_cons] at hnd
        simp only [MonitorMap.store, if_neg h, List.map_cons, List.nodup_cons]
        refine ⟨?_, ih.2 hnd.2⟩
        intro hmem
        rcases (ih.1 name').1 hmem with e | e
        · exact h e
        · exact hnd.1 e

theorem initializeMonitorsLoop_keys (repos : List Repository) (ms : MonitorMap) :
    (∀ k, k ∈ (initializeMonitorsLoop repos ms).map Prod.fst ↔
      k ∈ ms.map Prod.fst ∨ ∃ repo ∈ repos, repo.Name = k) ∧
    ((ms.map Prod.fst).Nodup → ((initializeMonitorsLoop repos ms).map Prod.fst).Nodup) := by
  induction repos generalizing ms with
  | nil =>
    constructor
    · intro k
      simp only [initializeMonitorsLoop, List.not_mem_nil, false_and, exists_false, or_false]
    · intro hnd
      exact hnd
  | cons repo rest ih =>
    have hs := MonitorMap.store_keys ms repo.Name (NewMonitor repo)
    have hi := ih (ms.store repo.Name (NewMonitor repo))
    constructor
    · intro k
      simp only [initializeMonitorsLoop, hi.1 k, hs.1 k, List.mem_cons, exists_eq_or_imp]
      constructor
      · rintro ((h | h) | h)
        · exact Or.inr (Or.inl h.symm)
        · exact Or.inl h
        · exact Or.inr (Or.inr h)
      · rintro (h | h | h)
        · exact Or.inl (Or.inr h)
        · exact Or.inl (Or.inl h.symm)
        · exact Or.inr h
    · intro hnd
      exact hi.2 (hs.2 hnd)

/-- C18, as the code has it: every configuration accepted by `validate` supplies a name
that is not empty for each repository and keeps the names as they were configured;
`validate` does not compare them. The registry `initializeMonitors` builds from the
accepted configuration holds one monitor per name: its names are those of the
repositories, each once. -/
theorem validate_names (cfg : Config) (h : (Manager.validate cfg).2 = none) :
    (∀ repo ∈ (Manager.validate cfg).1.Repositories, repo.Name ≠ []) ∧
    (Manager.validate cfg).1.Repositories.map (fun repo => repo.Name) =
      cfg.Repositories.map (fun repo => repo.Name) ∧
    ((initializeMonitorsLoop (Manager.validate cfg).1.Repositories []).map Prod.fst).Nodup ∧
    (∀ name, name ∈ (initializeMonitorsLoop (Manager.validate cfg).1.Repositories []).map
        Prod.fst ↔ ∃ repo ∈ cfg.Repositories, repo.Name = name) := by
  have hvalid := ((validate_accepts_iff cfg).1 h).2
  have hnames : (Manager.validate cfg).1.Repositories.map (fun repo => repo.Name) =
      cfg.Repositories.map (fun repo => repo.Name) := by
    rw [validate_accepted cfg h]
    simp only [List.map_map]
    apply List.map_congr_left
    intro repo _
    rfl
  have hkeys := initializeMonitorsLoop_keys (Manager.validate cfg).1.Repositories []
  have hmem : ∀ name, (∃ repo ∈ (Manager.validate cfg).1.Repositories, repo.Name = name) ↔
      ∃ repo ∈ cfg.Repositories, repo.Name = name := by
    intro name
    have h1 : (∃ repo ∈ (Manager.validate cfg).1.Repositories, repo.Name = name) ↔
        name ∈ (Manager.validate cfg).1.Repositories.map (fun repo => repo.Name) := by
      simp [List.mem_map]
    have h2 : (∃ repo ∈ cfg.Repositories, repo.Name = name) ↔
        name ∈ cfg.Repositories.map (fun repo => repo.Name) := by
      simp [List.mem_map]
    rw [h1, h2, hnames]
  refine ⟨?_, hnames, hkeys.2 (by simp), ?_⟩
  · intro repo hr
    rw [validate_accepted cfg h] at hr
    simp only [List.mem_map] at hr
    obtain ⟨r, hrm, hre⟩ := hr
    rw [← hre]
    intro hn
    exact hvalid r hrm (Or.inl hn)
  · intro name
    rw [hkeys.1 name, ← hmem name]
    simp

/-- C19: for every configuration accepted by `validate`, afterwards the agent's name, log
level, state dir, cache dir and poll interval are the configured values where set and
"cd-gun-agent", "info", "/var/lib/cd-gun", "/var/lib/cd-gun/repos" and "5m" where empty,
so none is empty; every repository is the configured one with branch, auth type, poll
interval and action timeout defaulted to "main", "none", the agent's poll interval and
"10m" where empty, so none of these is empty; everything else is unchanged. -/
theorem validate_defaults (cfg : Config) (h : (Manager.validate cfg).2 = none) :
    (Manager.validate cfg).1.Agent.Name = orDefault cfg.Agent.Name "cd-gun-agent".toList ∧
    (Manager.validate cfg).1.Agent.LogLevel = orDefault cfg.Agent.LogLevel "info".toList ∧
    (Manager.validate cfg).1.Agent.StateDir =
      orDefault cfg.Agent.StateDir "/var/lib/cd-gun".toList ∧
    (Manager.validate cfg).1.Agent.CacheDir =
      orDefault cfg.Agent.CacheDir "/var/lib/cd-gun/repos".toList ∧
    (Manager.validate cfg).1.Agent.PollInterval = orDefault cfg.Agent.PollInterval "5m".toList ∧
    ((Manager.validate cfg).1.Agent.Name ≠ [] ∧ (Manager.validate cfg).1.Agent.LogLevel ≠ [] ∧
      (Manager.validate cfg).1.Agent.StateDir ≠ [] ∧
      (Manager.validate cfg).1.Agent.CacheDir ≠ [] ∧
      (Manager.validate cfg).1.Agent.PollInterval ≠ []) ∧
    (Manager.validate cfg).1.Agent.LogFile = cfg.Agent.LogFile ∧
    (Manager.validate cfg).1.IncludeRepositories = cfg.IncludeRepositories ∧
    (Manager.validate cfg).1.Repositories =
      cfg.Repositories.map
        (repositoryWithDefaults (orDefault cfg.Agent.PollInterval "5m".toList)) ∧
    (∀ repo ∈ (Manager.validate cfg).1.Repositories,
      repo.Branch ≠ [] ∧ repo.Auth.Type_ ≠ [] ∧ repo.PollInterval ≠ [] ∧
        repo.Action.Timeout ≠ []) := by
  have hfields := agentDefaults_fields cfg.Agent
  obtain ⟨hn, hl, hs, hc, hp, hf, -⟩ := hfields
  have hacc := validate_accepted cfg h
  have hp5 : orDefault cfg.Agent.PollInterval "5m".toList ≠ [] :=
    orDefault_ne_nil _ _ (by decide)
  rw [hacc]
  refine ⟨hn, hl, hs, hc, hp, ⟨?_, ?_, ?_, ?_, ?_⟩, hf, rfl, ?_, ?_⟩
  · show (agentDefaults cfg.Agent).Name ≠ []
    rw [hn]
    exact orDefault_ne_nil _ _ (by decide)
  · show (agentDefaults cfg.Agent).LogLevel ≠ []
    rw [hl]
    exact orDefault_ne_nil _ _ (by decide)
  · show (agentDefaults cfg.Agent).StateDir ≠ []
    rw [hs]
    exact orDefault_ne_nil _ _ (by decide)
  · show (agentDefaults cfg.Agent).CacheDir ≠ []
    rw [hc]
    exact orDefault_ne_nil _ _ (by decide)
  · show (agentDefaults cfg.Agent).PollInterval ≠ []
    rw [hp]
    exact hp5
  · show cfg.Repositories.map (repositoryWithDefaults (agentDefaults cfg.Agent).PollInterval) = _
    rw [hp]
  · intro repo hr
    simp only [List.mem_map] at hr
    obtain ⟨r, -, hre⟩ := hr
    rw [← hre, hp]
    exact ⟨orDefault_ne_nil _ _ (by decide), orDefault_ne_nil _ _ (by decide),
      orDefault_ne_nil _ _ hp5, orDefault_ne_nil _ _ (by decide)⟩

/-! ## The action runner and the fold of its result -/

theorem buildEnvironment_of_found (action : Action) (event : ChangeEvent) (configMgr : Manager)
    (repo : Repository)
    (hfound : findRepository configMgr.GetConfig event.RepositoryName = some repo) :
    ∃ vars, buildEnvironment action event configMgr = .returned vars := by
  unfold buildEnvironment
  simp only [hfound]
  exact ⟨_, rfl⟩

theorem executeShell_of_found (env : ExecEnv) (action : Action) (event : ChangeEvent)
    (configMgr : Manager) (repo : Repository)
    (hfound : findRepository configMgr.GetConfig event.RepositoryName = some repo) :
    executeShell env action event configMgr = .returned none ∨
    ∃ err, err ≠ [] ∧ executeShell env action event configMgr = .returned (some err) := by
  obtain ⟨vars, hv⟩ := buildEnvironment_of_found action event configMgr repo hfound
  unfold executeShell
  simp only [hv]
  cases (env.shell action.Script vars (configMgr.GetActionTimeout action)).err with
  | none => exact Or.inl rfl
  | some e =>
    refine Or.inr ⟨_, ?_, rfl⟩
    intro h
    have hlen := congrArg List.length h
    simp at hlen

theorem Execute_result (env : ExecEnv) (action : Action) (event : ChangeEvent)
    (configMgr : Manager) (result : ExecutionResult)
    (h : Execute env action event configMgr = .returned (.ok result)) :
    result.RepositoryName = event.RepositoryName ∧ result.ExecutedAt = env.executedAt ∧
    (result.Success = true → result.Error = []) ∧
    (result.Success = false → result.Error ≠ [] ∧ action.Type_ = "shell".toList) := by
  unfold Execute at h
  by_cases hs : action.Type_ = "shell".toList
  · rw [if_pos hs] at h
    unfold executeShell at h
    cases hb : buildEnvironment action event configMgr with
    | panicked => simp [hb] at h
    | returned vars =>
      simp only [hb] at h
      cases hr : (env.shell action.Script vars (configMgr.GetActionTimeout action)).err with
      | none =>
        simp only [hr, Call.returned.injEq, Except.ok.injEq] at h
        subst h
        exact ⟨rfl, rfl, fun _ => rfl, fun hf => by cases hf⟩
      | some e =>
        simp only [hr, Call.returned.injEq, Except.ok.injEq] at h
        subst h
        refine ⟨rfl, rfl, (fun hf => by cases hf), fun _ => ⟨?_, hs⟩⟩
        intro hnil
        have hlen := congrArg List.length hnil
        simp at hlen
  · rw [if_neg hs] at h
    by_cases hw : action.Type_ = "webhook".toList
    · rw [if_pos hw] at h
      simp only [executeWebhook, Call.returned.injEq, Except.ok.injEq] at h
      subst h
      exact ⟨rfl, rfl, fun _ => rfl, fun hf => by cases hf⟩
    · rw [if_neg hw] at h
      simp at h

theorem Execute_runs (env : ExecEnv) (action : Action) (event : ChangeEvent)
    (configMgr : Manager) (repo : Repository)
    (hfound : findRepository configMgr.GetConfig event.RepositoryName = some repo)
    (htype : action.Type_ = "shell".toList ∨ action.Type_ = "webhook".toList) :
    ∃ result, Execute env action event configMgr = .returned (.ok result) := by
  unfold Execute
  by_cases hs : action.Type_ = "shell".toList
  · rw [if_pos hs]
    rcases executeShell_of_found env action event configMgr repo hfound with h | ⟨err, -, h⟩
    · rw [h]
      exact ⟨_, rfl⟩
    · rw [h]
      exact ⟨_, rfl⟩
  · rw [if_neg hs]
    have hw : action.Type_ = "webhook".toList := htype.resolve_left hs
    rw [if_pos hw]
    exact ⟨_, rfl⟩

theorem Execute_unknown (env : ExecEnv) (action : Action) (event : ChangeEvent)
    (configMgr : Manager) (hs : action.Type_ ≠ "shell".toList)
    (hw : action.Type_ ≠ "webhook".toList) :
    Execute env action event configMgr =
      .returned (.error ("unknown action type: ".toList ++ action.Type_)) := by
  unfold Execute
  rw [if_neg hs, if_neg hw]

theorem handleMonitorEvent_of_result (env : AppEnv) (a : App) (event : ChangeEvent)
    (repo : Repository) (result : ExecutionResult)
    (hrepo : findRepository a.config.GetConfig event.RepositoryName = some repo)
    (hexec : Execute env.exec repo.Action event a.config = .returned (.ok result))
    (hmap : a.stateStore.state.Repositories.isSome = true) :
    ∃ stateStore, a.handleMonitorEvent env event = (.returned none, { a with stateStore := stateStore }) ∧
      stateStore.GetRepository event.RepositoryName =
        ({ foldResult (a.stateStore.GetRepository event.RepositoryName).1 result with
            Name := event.RepositoryName }, true) := by
  obtain ⟨s', hs', hget⟩ := Store.UpdateRepository_isSome a.stateStore event.RepositoryName
    (foldResult (a.stateStore.GetRepository event.RepositoryName).1 result) env.now hmap
  refine ⟨s', ?_, hget⟩
  simp only [App.handleMonitorEvent, hrepo, hexec, hs']

/-- C13: when `handleMonitorEvent` folds an execution result into an initialised state
store, the repository's state gets, for a failed result, the status "failure" and the
result's error text, which is not empty (a failed result is a failed or timed-out shell
command); for a successful result the status "success" and an empty error; in both cases
`LastActionExecuted` is the result's timestamp and the stored commit is the one read
before the fold. -/
theorem handleMonitorEvent_folds (env : AppEnv) (a : App) (event : ChangeEvent)
    (repo : Repository) (result : ExecutionResult)
    (hrepo : findRepository a.config.GetConfig event.RepositoryName = some repo)
    (hexec : Execute env.exec repo.Action event a.config = .returned (.ok result))
    (hmap : a.stateStore.state.Repositories.isSome = true) :
    (a.handleMonitorEvent env event).1 = .returned none ∧
    (result.Success = false →
      ((a.handleMonitorEvent env event).2.stateStore.GetRepository
        event.RepositoryName).1.LastActionStatus = "failure".toList ∧
      ((a.handleMonitorEvent env event).2.stateStore.GetRepository
        event.RepositoryName).1.LastError = result.Error ∧
      result.Error ≠ []) ∧
    (result.Success = true →
      ((a.handleMonitorEvent env event).2.stateStore.GetRepository
        event.RepositoryName).1.LastActionStatus = "success".toList ∧
      ((a.handleMonitorEvent env event).2.stateStore.GetRepository
        event.RepositoryName).1.LastError = []) ∧
    ((a.handleMonitorEvent env event).2.stateStore.GetRepository
      event.RepositoryName).1.LastActionExecuted = result.ExecutedAt ∧
    ((a.handleMonitorEvent env event).2.stateStore.GetRepository
      event.RepositoryName).1.CurrentHash =
        (a.stateStore.GetRepository event.RepositoryName).1.CurrentHash ∧
    ((a.handleMonitorEvent env event).2.stateStore.GetRepository
      event.RepositoryName).1.LastFetch =
        (a.stateStore.GetRepository event.RepositoryName).1.LastFetch ∧
    ((a.handleMonitorEvent env event).2.stateStore.GetRepository event.RepositoryName).2 =
      true := by
  obtain ⟨s', hh, hget⟩ := handleMonitorEvent_of_result env a event repo result hrepo hexec hmap
  have hres := Execute_result env.exec repo.Action event a.config result hexec
  rw [hh]
  simp only [hget]
  refine ⟨trivial, ?_, ?_, ?_, ?_, ?_, trivial⟩
  · intro hf
    simp only [foldResult, hf]
    exact ⟨rfl, rfl, (hres.2.2.2 hf).1⟩
  · intro hsucc
    simp only [foldResult, hsucc]
    exact ⟨rfl, rfl⟩
  · cases hsx : result.Success <;> simp [foldResult, hsx]
  · cases hsx : result.Success <;> simp [foldResult, hsx]
  · cases hsx : result.Success <;> simp [foldResult, hsx]

/-- C14, where the code departs from the claim: for a Change Event whose repository is in
the configuration, with an initialised state store, handling the event runs the action
and folds its result only when the action type is "shell" or "webhook": afterwards the
status is "success" or "failure" and `LastActionExecuted` is the time of the run. For
every other action type, "custom" included, which `validate` accepts and the comment on
`Action.Type` lists, `Execute` returns an error and no result is folded: the
application, its state store included, is left as it was. -/
theorem handleMonitorEvent_by_action_type (env : AppEnv) (a : App) (event : ChangeEvent)
    (repo : Repository)
    (hrepo : findRepository a.config.GetConfig event.RepositoryName = some repo)
    (hmap : a.stateStore.state.Repositories.isSome = true) :
    ((repo.Action.Type_ = "shell".toList ∨ repo.Action.Type_ = "webhook".toList) →
      (a.handleMonitorEvent env event).1 = .returned none ∧
      (((a.handleMonitorEvent env event).2.stateStore.GetRepository
          event.RepositoryName).1.LastActionStatus = "success".toList ∨
        ((a.handleMonitorEvent env event).2.stateStore.GetRepository
          event.RepositoryName).1.LastActionStatus = "failure".toList) ∧
      ((a.handleMonitorEvent env event).2.stateStore.GetRepository
        event.RepositoryName).1.LastActionExecuted = env.exec.executedAt) ∧
    ((repo.Action.Type_ ≠ "shell".toList ∧ repo.Action.Type_ ≠ "webhook".toList) →
      a.handleMonitorEvent env event = (.returned none, a)) := by
  constructor
  · intro htype
    obtain ⟨result, hexec⟩ := Execute_runs env.exec repo.Action event a.config repo hrepo htype
    obtain ⟨s', hh, hget⟩ := handleMonitorEvent_of_result env a event repo result hrepo hexec hmap
    have hres := Execute_result env.exec repo.Action event a.config result hexec
    rw [hh]
    simp only [hget]
    refine ⟨trivial, ?_, ?_⟩
    · cases hsx : result.Success <;> simp [foldResult, hsx]
    · rw [← hres.2.1]
      cases hsx : result.Success <;> simp [foldResult, hsx]
  · rintro ⟨hs, hw⟩
    simp only [App.handleMonitorEvent, hrepo, Execute_unknown env.exec repo.Action event a.config hs hw]

/-! ## Stopping the application and the control loop -/

theorem App.Stop_of_open (env : AppEnv) (disk : Disk) (a : App)
    (hopen : a.stopChanClosed = false) :
    (a.Stop env disk).outcome = .returned (a.stateStore.Close env.codec disk).err ∧
    (a.Stop env disk).app.stopChanClosed = true ∧
    (a.Stop env disk).app.stateStore = (a.stateStore.Close env.codec disk).store ∧
    (a.Stop env disk).app.config = a.config ∧
    (a.Stop env disk).app.monitors = a.monitors ∧
    (a.Stop env disk).disk = (a.stateStore.Close env.codec disk).disk := by
  unfold App.Stop
  simp only [hopen, Bool.false_eq_true, if_false]
  cases hc : (a.stateStore.Close env.codec disk).err with
  | some err => exact ⟨rfl, rfl, rfl, rfl, rfl, rfl⟩
  | none =>
    cases hl : a.logFile with
    | stdout => exact ⟨rfl, rfl, rfl, rfl, rfl, rfl⟩
    | file path closed => exact ⟨rfl, rfl, rfl, rfl, rfl, rfl⟩

theorem App.Stop_of_closed (env : AppEnv) (disk : Disk) (a : App)
    (hclosed : a.stopChanClosed = true) : a.Stop env disk = ⟨.panicked, a, disk⟩ := by
  unfold App.Stop
  simp only [hclosed, if_true]

/-- C15, as the code has it: `Stop` is not idempotent. On an application whose stop channel
is open, `Stop` closes the channel, closes the state store (timer stopped, one save) and
returns the error of that save, nil when it succeeded, leaving configuration and monitors
as they were; every further call of `Stop` panics on closing the closed channel and
changes nothing. -/
theorem App.Stop_once (env : AppEnv) (disk : Disk) (a : App)
    (hopen : a.stopChanClosed = false) :
    (a.Stop env disk).outcome = .returned (a.stateStore.Close env.codec disk).err ∧
    (a.Stop env disk).app.stopChanClosed = true ∧
    (a.Stop env disk).app.stateStore = (a.stateStore.Close env.codec disk).store ∧
    (a.Stop env disk).app.config = a.config ∧
    (a.Stop env disk).app.monitors = a.monitors ∧
    (a.Stop env disk).disk = (a.stateStore.Close env.codec disk).disk ∧
    (∀ (env' : AppEnv) (disk' : Disk),
      (a.Stop env disk).app.Stop env' disk' = ⟨.panicked, (a.Stop env disk).app, disk'⟩) := by
  obtain ⟨h1, h2, h3, h4, h5, h6⟩ := App.Stop_of_open env disk a hopen
  exact ⟨h1, h2, h3, h4, h5, h6, fun env' disk' => App.Stop_of_closed env' disk' _ h2⟩

theorem Execute_of_found (env : ExecEnv) (action : Action) (event : ChangeEvent)
    (configMgr : Manager) (repo : Repository)
    (hfound : findRepository configMgr.GetConfig event.RepositoryName = some repo) :
    ∃ r, Execute env action event configMgr = .returned r := by
  by_cases hs : action.Type_ = "shell".toList
  · obtain ⟨result, h⟩ := Execute_runs env action event configMgr repo hfound (Or.inl hs)
    exact ⟨_, h⟩
  · by_cases hw : action.Type_ = "webhook".toList
    · obtain ⟨result, h⟩ := Execute_runs env action event configMgr repo hfound (Or.inr hw)
      exact ⟨_, h⟩
    · exact ⟨_, Execute_unknown env action event configMgr hs hw⟩

theorem handleMonitorEvent_returns (env : AppEnv) (a : App) (event : ChangeEvent)
    (hmap : a.stateStore.state.Repositories.isSome = true) :
    (a.handleMonitorEvent env event).1 = .returned none := by
  cases hrepo : findRepository a.config.GetConfig event.RepositoryName with
  | none => simp only [App.handleMonitorEvent, hrepo]
  | some repo =>
    obtain ⟨r, hr⟩ := Execute_of_found env.exec repo.Action event a.config repo hrepo
    cases r with
    | error err => simp only [App.handleMonitorEvent, hrepo, hr]
    | ok result =>
      obtain ⟨s', hh, -⟩ :=
        handleMonitorEvent_of_result env a event repo result hrepo hr hmap
      rw [hh]

theorem App.forceCheck_lookup (a : App) (name : Str) :
    a.forceCheck.monitors.lookup name = (a.monitors.lookup name).map Monitor.ForceCheck := by
  unfold App.forceCheck
  simp only
  induction a.monitors with
  | nil => rfl
  | cons nm rest ih =>
    obtain ⟨n, m⟩ := nm
    simp only [List.map_cons, List.lookup_cons]
    cases name == n with
    | true => rfl
    | false => exact ih

/-- C16: one turn of `eventLoop` handles the one case `reflect.Select` chose. A receive on
the stop channel ends the loop with nothing done; SIGTERM or SIGINT calls `Stop` and ends
the loop; SIGHUP calls `reloadConfig` and SIGUSR1 calls `ForceCheck` on every registered
monitor, and the loop goes on; a timer tick reloads the configuration when its file
changed and the loop goes on; a Change Event is taken from its monitor and handled, and,
the state store being initialised, the loop goes on. -/
theorem App.eventLoopTurn_dispatch (env : AppEnv) (disk : Disk) (a : App) :
    a.eventLoopTurn env disk .stop = some ⟨.exit, a, disk⟩ ∧
    (∀ sig, sig = Signal.SIGTERM ∨ sig = Signal.SIGINT →
      ∃ turn, a.eventLoopTurn env disk (.signal (some sig)) = some turn ∧
        turn.app = (a.Stop env disk).app ∧ turn.disk = (a.Stop env disk).disk ∧
        turn.next ≠ .again ∧ (a.stopChanClosed = false → turn.next = .exit)) ∧
    a.eventLoopTurn env disk (.signal (some .SIGHUP)) =
      some ⟨.again, a.reloadConfig env, disk⟩ ∧
    a.eventLoopTurn env disk (.signal (some .SIGUSR1)) = some ⟨.again, a.forceCheck, disk⟩ ∧
    (∀ name, a.forceCheck.monitors.lookup name =
      (a.monitors.lookup name).map Monitor.ForceCheck) ∧
    (a.forceCheck.stateStore = a.stateStore ∧ a.forceCheck.config = a.config) ∧
    a.eventLoopTurn env disk .timer =
      some ⟨.again, if a.config.IsModified env.config then a.reloadConfig env else a, disk⟩ ∧
    ((a.reloadConfig env).monitors = a.monitors ∧
      (a.reloadConfig env).stateStore = a.stateStore) ∧
    (∀ name mon event mon', a.monitors.lookup name = some mon →
      mon.takeEvent = some (event, mon') →
      a.stateStore.state.Repositories.isSome = true →
      a.eventLoopTurn env disk (.monitorEvent name) =
        some ⟨.again,
          (App.handleMonitorEvent env { a with monitors := a.monitors.store name mon' }
            event).2, disk⟩) ∧
    (∀ name, (∀ mon, a.monitors.lookup name = some mon → mon.eventChan.buf = []) →
      a.eventLoopTurn env disk (.monitorEvent name) = none) := by
  refine ⟨rfl, ?_, rfl, rfl, App.forceCheck_lookup a, ⟨rfl, rfl⟩, ?_, ?_, ?_, ?_⟩
  · intro sig hsig
    have hturn : a.eventLoopTurn env disk (.signal (some sig)) =
        match (a.Stop env disk).outcome with
        | .panicked => some ⟨.panicked, (a.Stop env disk).app, (a.Stop env disk).disk⟩
        | .returned _ => some ⟨.exit, (a.Stop env disk).app, (a.Stop env disk).disk⟩ := by
      rcases hsig with h | h <;> subst h <;> rfl
    rw [hturn]
    cases ho : (a.Stop env disk).outcome with
    | panicked =>
      refine ⟨_, rfl, rfl, rfl, by simp, ?_⟩
      intro hopen
      rw [(App.Stop_of_open env disk a hopen).1] at ho
      cases ho
    | returned err => exact ⟨_, rfl, rfl, rfl, by simp, fun _ => rfl⟩
  · unfold App.eventLoopTurn
    simp only
    split_ifs <;> rfl
  · unfold App.reloadConfig
    split <;> exact ⟨rfl, rfl⟩
  · intro name mon event mon' hlook htake hmap
    have hret := handleMonitorEvent_returns env
      { a with monitors := a.monitors.store name mon' } event hmap
    unfold App.eventLoopTurn
    simp only [hlook, htake]
    split
    · rename_i a' heq
      rw [heq] at hret
      cases hret
    · rename_i err a' heq
      rw [heq]
  · intro name hempty
    unfold App.eventLoopTurn
    simp only
    cases hlook : a.monitors.lookup name with
    | none => rfl
    | some mon =>
      have hbuf := hempty mon hlook
      simp only [Monitor.takeEvent, Chan.tryRecv, hbuf]

/-! ## The log level of the application -/

theorem parseIntervals_agent (env : ConfigEnv) (cfg cfg' : Config)
    (h : Manager.parseIntervals env cfg = .ok cfg') :
    cfg'.Agent.LogLevel = cfg.Agent.LogLevel := by
  unfold Manager.parseIntervals at h
  cases hd : env.parseDuration cfg.Agent.PollInterval with
  | error err => simp [hd] at h
  | ok d =>
    cases hr : parseRepositoryIntervals env 0 cfg.Repositories with
    | error err => simp [hd, hr] at h
    | ok repos =>
      simp only [hd, hr, Except.ok.injEq] at h
      rw [← h]

theorem Manager.Load_logLevel (env : ConfigEnv) (m : Manager) (cfg : Config)
    (hparsed : env.parsed = .ok cfg) (hload : (m.Load env).1 = none) :
    (m.Load env).2.config.Agent.LogLevel = orDefault cfg.Agent.LogLevel "info".toList := by
  unfold Manager.Load at hload ⊢
  simp only [hparsed] at hload ⊢
  cases hi : loadIncludes env cfg.IncludeRepositories cfg.Repositories with
  | error err => simp [hi] at hload
  | ok repos =>
    simp only [hi] at hload ⊢
    cases hv : Manager.validate { cfg with Repositories := repos } with
    | mk cfg₁ verr =>
      cases verr with
      | some err => simp [hv] at hload
      | none =>
        have hacc := validate_accepted { cfg with Repositories := repos } (by rw [hv])
        rw [hv] at hacc
        simp only at hacc
        have hlevel : cfg₁.Agent.LogLevel = orDefault cfg.Agent.LogLevel "info".toList := by
          rw [hacc]
          exact (agentDefaults_fields cfg.Agent).2.1
        simp only [hv] at hload ⊢
        cases hp : Manager.parseIntervals env cfg₁ with
        | error err => simp [hp] at hload
        | ok cfg₂ =>
          have h2 := parseIntervals_agent env cfg₁ cfg₂ hp
          simp only [hp] at hload ⊢
          cases env.modTime with
          | ok t => simp only; rw [h2, hlevel]
          | error e => simp only; rw [h2, hlevel]

theorem initializeMonitors_logLevel (a : App) : a.initializeMonitors.logLevel = a.logLevel := rfl

/-- C20, where the code departs from the claim and from its own comment: whenever `NewApp`
succeeds, the level it hands to the logger is
the configuration file's log_level where the file sets one and "info" where it sets none;
the value of the `-log-level` flag is never used, because `validate` has put "info" in
place of an empty log_level before `NewApp` looks at it. -/
theorem NewApp_logLevel (env : AppEnv) (disk : Disk) (configPath logLevel : Str)
    (cfg : Config) (app : App) (hparsed : env.config.parsed = .ok cfg)
    (hnew : NewApp env disk configPath logLevel = .ok app) :
    app.logLevel = orDefault cfg.Agent.LogLevel "info".toList := by
  unfold NewApp at hnew
  cases hm : NewManager env.config configPath with
  | error err => simp [hm] at hnew
  | ok configMgr =>
    have hlevel : configMgr.config.Agent.LogLevel =
        orDefault cfg.Agent.LogLevel "info".toList := by
      unfold NewManager at hm
      simp only at hm
      cases hl : Manager.Load env.config { config := {}, configPath := configPath } with
      | mk lerr m' =>
        have key := Manager.Load_logLevel env.config
          { config := {}, configPath := configPath } cfg hparsed
        rw [hl] at hm key
        cases lerr with
        | some err => simp at hm
        | none =>
          simp only [Except.ok.injEq] at hm
          rw [← hm]
          exact key rfl
    have hne : configMgr.config.Agent.LogLevel ≠ [] := by
      rw [hlevel]
      exact orDefault_ne_nil _ _ (by decide)
    simp only [hm, Manager.GetConfig] at hnew
    split at hnew
    · cases hnew
    · split at hnew
      · cases hnew
      · simp only [Except.ok.injEq] at hnew
        rw [← hnew, initializeMonitors_logLevel]
        simp only [effectiveLogLevel, hne, ne_eq, not_false_eq_true, if_true]
        exact hlevel

/-! ## The scenarios of the state store, the configuration and the application -/

/-- Scenario of C11: the state file contains invalid JSON. -/
theorem NewStore_without_state_file_witness :
    diskBadStateFile.mkdirAllErr = none ∧
    (∃ data err, diskBadStateFile.ReadFile
        (filepathJoin "/var/lib/cd-gun".toList "state.json".toList) = .ok data ∧
      codecStandIn.unmarshal data = .error err) ∧
    (∃ store, NewStore codecStandIn diskBadStateFile 5 "/var/lib/cd-gun".toList = .ok store ∧
      store.state.Version = "1.0".toList ∧ store.state.Repositories = some [] ∧
      store.state = NewState 5 ∧
      store.filePath = filepathJoin "/var/lib/cd-gun".toList "state.json".toList) ∧
    (∀ s : Store, s.filePath = filepathJoin "/var/lib/cd-gun".toList "state.json".toList →
      ∃ err, s.Load codecStandIn diskBadStateFile = (some err, s)) :=
  ⟨rfl, ⟨_, _, rfl, rfl⟩,
    NewStore_without_state_file codecStandIn diskBadStateFile 5 "/var/lib/cd-gun".toList rfl
      (Or.inr ⟨_, _, rfl, rfl⟩)⟩

/-- Scenario of C12: the store is closed while the save of the first check is pending. -/
theorem Store.Close_flushes_witness :
    storeChecked.saveTimer = some { pending := true } ∧
    (storeChecked.Close codecStandIn {}).err = none ∧
    (storeChecked.Close codecStandIn {}).store.saveTimer = some { pending := false } ∧
    (storeChecked.Close codecStandIn {}).disk.ReadFile storeChecked.filePath =
      .ok "version=1.0".toList ∧
    (∃ data, codecStandIn.marshalIndent storeChecked.state = .ok data ∧
      (storeChecked.Close codecStandIn {}).disk.ReadFile storeChecked.filePath = .ok data) :=
  ⟨rfl, rfl, rfl, rfl, ((Store.Close_flushes codecStandIn {} storeChecked).2.2.2.2.2 rfl).1⟩

/-- Scenario of C13: the action of "svc-a" times out. -/
theorem handleMonitorEvent_folds_witness :
    ((appWith shellActionConfig storeChecked).handleMonitorEvent
      (appEnvOf shellActionConfig shellTimesOut) eventForB).1 = .returned none ∧
    (((appWith shellActionConfig storeChecked).handleMonitorEvent
      (appEnvOf shellActionConfig shellTimesOut) eventForB).2.stateStore.GetRepository
        "svc-a".toList).1.LastActionStatus = "failure".toList ∧
    (((appWith shellActionConfig storeChecked).handleMonitorEvent
      (appEnvOf shellActionConfig shellTimesOut) eventForB).2.stateStore.GetRepository
        "svc-a".toList).1.LastError ≠ [] ∧
    (((appWith shellActionConfig storeChecked).handleMonitorEvent
      (appEnvOf shellActionConfig shellTimesOut) eventForB).2.stateStore.GetRepository
        "svc-a".toList).1.LastActionExecuted = 20 ∧
    (((appWith shellActionConfig storeChecked).handleMonitorEvent
      (appEnvOf shellActionConfig shellTimesOut) eventForB).2.stateStore.GetRepository
        "svc-a".toList).1.CurrentHash = "B".toList := by
  have h := handleMonitorEvent_folds (appEnvOf shellActionConfig shellTimesOut)
    (appWith shellActionConfig storeChecked) eventForB _ _ rfl rfl rfl
  exact ⟨h.1, (h.2.1 rfl).1, fun e => (h.2.1 rfl).2.2 ((h.2.1 rfl).2.1.symm.trans e),
    h.2.2.2.1, h.2.2.2.2.1⟩

/-- The failing input of C14: `validate` accepts the action type "custom" and the
repository of the event is in the configuration, yet handling the event folds nothing:
the state store is as it was, the status is neither "success" nor "failure" and no
execution time is set. With the action type "shell" the result is folded. -/
theorem handleMonitorEvent_by_action_type_witness :
    (Manager.validate customActionConfig).2 = none ∧
    (findRepository (appWith customActionConfig storeChecked).config.GetConfig
      eventForB.RepositoryName).isSome = true ∧
    (appWith customActionConfig storeChecked).stateStore.state.Repositories.isSome = true ∧
    (appWith customActionConfig storeChecked).handleMonitorEvent
      (appEnvOf customActionConfig shellSucceeds) eventForB =
        (.returned none, appWith customActionConfig storeChecked) ∧
    (((appWith customActionConfig storeChecked).handleMonitorEvent
      (appEnvOf customActionConfig shellSucceeds) eventForB).2.stateStore.GetRepository
        "svc-a".toList).1.LastActionStatus ≠ "success".toList ∧
    (((appWith customActionConfig storeChecked).handleMonitorEvent
      (appEnvOf customActionConfig shellSucceeds) eventForB).2.stateStore.GetRepository
        "svc-a".toList).1.LastActionStatus ≠ "failure".toList ∧
    (((appWith customActionConfig storeChecked).handleMonitorEvent
      (appEnvOf customActionConfig shellSucceeds) eventForB).2.stateStore.GetRepository
        "svc-a".toList).1.LastActionExecuted = 0 ∧
    (((appWith shellActionConfig storeChecked).handleMonitorEvent
      (appEnvOf shellActionConfig shellSucceeds) eventForB).2.stateStore.GetRepository
        eventForB.RepositoryName).1.LastActionExecuted =
          (appEnvOf shellActionConfig shellSucceeds).exec.executedAt :=
  ⟨by decide, by decide, rfl,
    (handleMonitorEvent_by_action_type (appEnvOf customActionConfig shellSucceeds)
      (appWith customActionConfig storeChecked) eventForB _ rfl rfl).2 ⟨by decide, by decide⟩,
    by decide, by decide, by decide,
    ((handleMonitorEvent_by_action_type (appEnvOf shellActionConfig shellSucceeds)
      (appWith shellActionConfig storeChecked) eventForB _ rfl rfl).1 (Or.inl rfl)).2.2⟩

/-- Counterexample to C15 as stated: the first `Stop` returns without error, the second
panics. -/
theorem Stop_twice_counterexample :
    ((appWith shellActionConfig storeChecked).Stop
      (appEnvOf shellActionConfig shellSucceeds) {}).outcome = .returned none ∧
    (((appWith shellActionConfig storeChecked).Stop
      (appEnvOf shellActionConfig shellSucceeds) {}).app.Stop
        (appEnvOf shellActionConfig shellSucceeds)
        ((appWith shellActionConfig storeChecked).Stop
          (appEnvOf shellActionConfig shellSucceeds) {}).disk).outcome = .panicked := by
  refine ⟨?_, ?_⟩ <;> decide

/-- Scenario of C15: the application is stopped once, the save of the first check
pending. -/
theorem App.Stop_once_witness :
    (appWith shellActionConfig storeChecked).stopChanClosed = false ∧
    ((appWith shellActionConfig storeChecked).Stop
      (appEnvOf shellActionConfig shellSucceeds) {}).app.stopChanClosed = true ∧
    ((appWith shellActionConfig storeChecked).Stop
      (appEnvOf shellActionConfig shellSucceeds) {}).app.stateStore =
        (storeChecked.Close codecStandIn {}).store ∧
    (∀ (env' : AppEnv) (disk' : Disk),
      ((appWith shellActionConfig storeChecked).Stop
        (appEnvOf shellActionConfig shellSucceeds) {}).app.Stop env' disk' =
        ⟨.panicked, ((appWith shellActionConfig storeChecked).Stop
          (appEnvOf shellActionConfig shellSucceeds) {}).app, disk'⟩) := by
  have h := App.Stop_once (appEnvOf shellActionConfig shellSucceeds) {}
    (appWith shellActionConfig storeChecked) rfl
  exact ⟨rfl, h.2.1, h.2.2.1, h.2.2.2.2.2.2⟩

/-- Scenario of C16: the event of the first check waits in the monitor of "svc-a" and the
control loop takes it. -/
theorem App.eventLoopTurn_dispatch_witness :
    appEventWaiting.stateStore.state.Repositories.isSome = true ∧
    appEventWaiting.eventLoopTurn (appEnvOf shellActionConfig shellSucceeds) {}
        (.monitorEvent "svc-a".toList) =
      some ⟨.again,
        (App.handleMonitorEvent (appEnvOf shellActionConfig shellSucceeds)
          { appEventWaiting with
            monitors := appEventWaiting.monitors.store "svc-a".toList (NewMonitor svcA) }
          eventForB).2, {}⟩ :=
  ⟨rfl,
    (App.eventLoopTurn_dispatch (appEnvOf shellActionConfig shellSucceeds) {}
      appEventWaiting).2.2.2.2.2.2.2.2.1 "svc-a".toList _ eventForB (NewMonitor svcA)
      rfl rfl rfl⟩

/-- Counterexample to C18 as stated: `validate` accepts a configuration that lists the
name "svc-a" twice. -/
theorem validate_names_counterexample :
    (Manager.validate twiceSvcAConfig).2 = none ∧
    ¬ ((Manager.validate twiceSvcAConfig).1.Repositories.map (fun repo => repo.Name)).Nodup ∧
    (Manager.validate twiceSvcAConfig).1.Repositories.map (fun repo => repo.Name) =
      ["svc-a".toList, "svc-a".toList] := by
  refine ⟨?_, ?_, ?_⟩ <;> decide

/-- Scenario of C18: the configuration that lists "svc-a" twice gets one monitor. -/
theorem validate_names_witness :
    (Manager.validate twiceSvcAConfig).2 = none ∧
    (∀ repo ∈ (Manager.validate twiceSvcAConfig).1.Repositories, repo.Name ≠ []) ∧
    ((initializeMonitorsLoop (Manager.validate twiceSvcAConfig).1.Repositories []).map
      Prod.fst).Nodup ∧
    (initializeMonitorsLoop (Manager.validate twiceSvcAConfig).1.Repositories []).map
      Prod.fst = ["svc-a".toList] := by
  have h := validate_names twiceSvcAConfig (by decide)
  exact ⟨by decide, h.1, h.2.2.1, by decide⟩

/-- Scenario of C19: the minimal configuration of `TestConfigDefaults`. -/
theorem validate_defaults_witness :
    (Manager.validate minimalConfig).2 = none ∧
    (Manager.validate minimalConfig).1.Agent.Name = "cd-gun-agent".toList ∧
    (Manager.validate minimalConfig).1.Agent.LogLevel = "info".toList ∧
    (Manager.validate minimalConfig).1.Agent.PollInterval = "5m".toList ∧
    (∀ repo ∈ (Manager.validate minimalConfig).1.Repositories,
      repo.Branch ≠ [] ∧ repo.Auth.Type_ ≠ [] ∧ repo.PollInterval ≠ [] ∧
        repo.Action.Timeout ≠ []) := by
  have h := validate_defaults minimalConfig (by decide)
  exact ⟨by decide, h.1, h.2.1, h.2.2.2.2.1, h.2.2.2.2.2.2.2.2.2⟩

/-- The failing input of C20: a configuration file that sets no log_level, started with
`-log-level debug`. The application logs at "info". -/
theorem NewApp_logLevel_witness :
    (appEnvOf minimalConfig shellSucceeds).config.parsed = .ok minimalConfig ∧
    minimalConfig.Agent.LogLevel = [] ∧
    ∃ app, NewApp (appEnvOf minimalConfig shellSucceeds) {} "/etc/cd-gun/config.yaml".toList
        "debug".toList = .ok app ∧
      app.logLevel = "info".toList ∧ app.logLevel ≠ "debug".toList := by
  refine ⟨rfl, rfl, ?_⟩
  cases h : NewApp (appEnvOf minimalConfig shellSucceeds) {} "/etc/cd-gun/config.yaml".toList
      "debug".toList with
  | error err =>
    have hok : (NewApp (appEnvOf minimalConfig shellSucceeds) {}
        "/etc/cd-gun/config.yaml".toList "debug".toList).isOk = true := by decide
    rw [h] at hok
    cases hok
  | ok app =>
    have hl := NewApp_logLevel (appEnvOf minimalConfig shellSucceeds) {}
      "/etc/cd-gun/config.yaml".toList "debug".toList minimalConfig app rfl h
    refine ⟨app, rfl, hl, ?_⟩
    rw [hl]
    decide

/-! ## The wildcard, the record a check cycle writes, and the repository map -/

theorem matchesPath_under_wildcard (dir rest : Str) :
    matchesPath (dir ++ '/' :: rest) (dir ++ ['/', '*']) = true := by
  have hpat : patternSansSlash (dir ++ ['/', '*']) = dir ++ ['/', '*'] := by
    have h := patternSansSlash_other (dir ++ ['/']) '*' (by decide)
    simpa using h
  have hsuf : HasSuffix (dir ++ ['/', '*']) ['/', '*'] = true :=
    (HasSuffix_iff _ _).2 ⟨dir, rfl⟩
  have hpre : HasPrefix (dir ++ '/' :: rest) (dir ++ ['/']) = true :=
    (liesUnder_iff _ _).2 ⟨rest, rfl⟩
  unfold matchesPath
  simp only [TrimSuffix_slash, hpat]
  by_cases h1 : dir ++ '/' :: rest = dir ++ ['/', '*']
  · rw [if_pos h1]
  · rw [if_neg h1]
    by_cases h2 : HasPrefix (dir ++ '/' :: rest) (dir ++ ['/', '*'] ++ ['/']) = true
    · rw [if_pos h2]
    · rw [if_neg h2, if_pos hsuf, TrimSuffix_append, hpre]
      rfl

/-- C21, as the code has it: for a pattern ending in the wildcard `/*`, with or without a
trailing `/`, `matchesPath` matches every path that starts with the pattern's directory
followed by `/`, at any depth below it. -/
theorem matchesPath_wildcard_recursive (dir rest : Str) :
    matchesPath (dir ++ '/' :: rest) (dir ++ ['/', '*']) = true ∧
    matchesPath (dir ++ '/' :: rest) (dir ++ ['/', '*', '/']) = true ∧
    (∀ sub file : Str,
      matchesPath (dir ++ '/' :: (sub ++ '/' :: file)) (dir ++ ['/', '*']) = true) := by
  refine ⟨matchesPath_under_wildcard dir rest, ?_, fun sub file =>
    matchesPath_under_wildcard dir (sub ++ '/' :: file)⟩
  have h := matchesPath_under_wildcard dir rest
  unfold matchesPath at h ⊢
  have hslash : TrimSuffix (dir ++ ['/', '*', '/']) ['/'] = dir ++ ['/', '*'] := by
    have := TrimSuffix_append (dir ++ ['/', '*']) ['/']
    simpa using this
  have hplain : TrimSuffix (dir ++ ['/', '*']) ['/'] = dir ++ ['/', '*'] := by
    rw [TrimSuffix_slash]
    have h' := patternSansSlash_other (dir ++ ['/']) '*' (by decide)
    simpa using h'
  rw [hplain] at h
  rw [hslash]
  exact h

/-- Counterexample to C21 as stated: `src/a/b.go` matches the pattern `src/*`, although it
is neither the pattern itself nor under the pattern taken as a directory: the wildcard
rule alone makes it match. -/
theorem matchesPath_wildcard_counterexample :
    matchesPath "src/a/b.go".toList "src/*".toList = true ∧
    "src/a/b.go".toList ≠ patternSansSlash "src/*".toList ∧
    HasPrefix "src/a/b.go".toList (patternSansSlash "src/*".toList ++ ['/']) = false := by
  refine ⟨?_, ?_, ?_⟩ <;> decide

/-- C22: when a check cycle changes the state store, the entry it leaves for its
repository is the record it built, with the name, the fetch time and the resolved commit
and nothing else: `LastActionExecuted`, `LastActionStatus` and `LastError` are the zero
values, whatever the entry held before. -/
theorem checkRepository_replaces_entry (env : GitEnv) (clock : Clock) (m : Monitor)
    (stateStore : Store)
    (hstored : (m.checkRepository env clock stateStore).store ≠ stateStore) :
    ∃ currentHash, (NewGitHelper env).GetHash m.repo.Branch = .ok currentHash ∧
      (m.checkRepository env clock stateStore).store.GetRepository m.repo.Name =
        ({ Name := m.repo.Name, LastFetch := clock.lastFetch, CurrentHash := currentHash },
          true) ∧
      ((m.checkRepository env clock stateStore).store.GetRepository
        m.repo.Name).1.LastActionExecuted = 0 ∧
      ((m.checkRepository env clock stateStore).store.GetRepository
        m.repo.Name).1.LastActionStatus = [] ∧
      ((m.checkRepository env clock stateStore).store.GetRepository
        m.repo.Name).1.LastError = [] := by
  rcases checkRepository_cases env clock m stateStore with
    h | ⟨currentHash, ev, s', hh, hu, -, -, -, -, hr⟩
  · exact absurd h.1 hstored
  · have hget := Store.UpdateRepository_get stateStore s' m.repo.Name _ _ hu
    refine ⟨currentHash, hh, ?_, ?_, ?_, ?_⟩ <;> rw [hr] <;> simp only [hget]

theorem State.UpdateRepository_frame (s : State) (n : Str) (r : RepositoryState) (now : Time)
    (hmap : s.Repositories.isSome = true) :
    ∃ s', s.UpdateRepository n r now = some s' ∧
      s'.GetRepository n = ({ r with Name := n }, true) ∧
      (∀ k, k ≠ n → s'.GetRepository k = s.GetRepository k) ∧
      s'.Version = s.Version ∧ s'.LastUpdated = now ∧ s'.Repositories.isSome = true := by
  cases hm : s.Repositories with
  | none => rw [hm] at hmap; cases hmap
  | some mp =>
    refine ⟨{ s with Repositories := some (mp.store n { r with Name := n }),
                     LastUpdated := now }, ?_, ?_, ?_, rfl, rfl, rfl⟩
    · simp only [State.UpdateRepository, hm]
    · simp only [State.GetRepository, RepoMap.lookup_store_same]
    · intro k hk
      simp only [State.GetRepository, hm, RepoMap.lookup_store_other mp n k _ hk]

theorem Store.UpdateRepository_state (s s' : Store) (n : Str) (r : RepositoryState)
    (now : Time) (h : s.UpdateRepository n r now = some s') :
    s.state.UpdateRepository n r now = some s'.state := by
  unfold Store.UpdateRepository at h
  cases hu : s.state.UpdateRepository n r now with
  | none => simp [hu] at h
  | some st =>
    simp only [hu, Option.some.injEq] at h
    rw [← h]
    unfold Store.SaveAsync
    split <;> rfl

/-- C24: on a state whose map is initialised, `UpdateRepository n r` succeeds; afterwards
`GetRepository n` returns `r` with its `Name` set to `n`, found; `GetRepository` of every
other name returns what it returned before; the version is unchanged; and when every
entry had its key as `Name` before, every entry has it afterwards. The same holds through
the store's `UpdateRepository` and `GetRepository`. -/
theorem UpdateRepository_GetRepository (s : State) (n : Str) (r : RepositoryState) (now : Time)
    (hmap : s.Repositories.isSome = true) :
    ∃ s', s.UpdateRepository n r now = some s' ∧
      s'.GetRepository n = ({ r with Name := n }, true) ∧
      (s'.GetRepository n).1.Name = n ∧
      (∀ k, k ≠ n → s'.GetRepository k = s.GetRepository k) ∧
      s'.Version = s.Version ∧
      ((∀ k v, s.GetRepository k = (v, true) → v.Name = k) →
        ∀ k v, s'.GetRepository k = (v, true) → v.Name = k) ∧
      (∀ st : Store, st.state = s →
        ∃ st', st.UpdateRepository n r now = some st' ∧ st'.state = s' ∧
          st'.GetRepository n = ({ r with Name := n }, true) ∧
          (∀ k, k ≠ n → st'.GetRepository k = st.GetRepository k) ∧
          st'.state.Version = st.state.Version) := by
  obtain ⟨s', hu, hget, hother, hver, -, -⟩ := State.UpdateRepository_frame s n r now hmap
  refine ⟨s', hu, hget, ?_, hother, hver, ?_, ?_⟩
  · rw [hget]
  · intro hinv k v hk
    by_cases hkn : k = n
    · subst hkn
      rw [hget] at hk
      simp only [Prod.mk.injEq, and_true] at hk
      rw [← hk]
    · rw [hother k hkn] at hk
      exact hinv k v hk
  · intro st hst
    subst hst
    obtain ⟨st', hst', -⟩ := Store.UpdateRepository_isSome st n r now hmap
    have hstate := Store.UpdateRepository_state st st' n r now hst'
    rw [hu, Option.some.injEq] at hstate
    refine ⟨st', hst', hstate.symm, ?_, ?_, ?_⟩
    · unfold Store.GetRepository
      rw [← hstate]
      exact hget
    · intro k hk
      unfold Store.GetRepository
      rw [← hstate]
      exact hother k hk
    · rw [← hstate]
      exact hver

theorem Store.GetRepository_nil_map (s : Store) (name : Str)
    (hnil : s.state.Repositories = none) : s.GetRepository name = ({}, false) := by
  simp only [Store.GetRepository, State.GetRepository, hnil]

theorem Store.UpdateRepository_nil_map (s : Store) (name : Str) (r : RepositoryState)
    (now : Time) (hnil : s.state.Repositories = none) : s.UpdateRepository name r now = none := by
  simp only [Store.UpdateRepository, State.UpdateRepository, hnil]

theorem checkRepository_nil_map (env : GitEnv) (clock : Clock) (m : Monitor)
    (stateStore : Store) (currentHash : Str)
    (he : (NewGitHelper env).EnsureRepository m.repo = none)
    (hf : (NewGitHelper env).Fetch m.repo = none)
    (hh : (NewGitHelper env).GetHash m.repo.Branch = .ok currentHash)
    (hwatch : m.repo.WatchPaths ≠ [])
    (hnil : stateStore.state.Repositories = none) :
    m.checkRepository env clock stateStore = ⟨.panicked, m, stateStore⟩ := by
  have hget := Store.GetRepository_nil_map stateStore m.repo.Name hnil
  have hfiles : changedFilesFor (NewGitHelper env) m.repo
      (stateStore.GetRepository m.repo.Name).1 (stateStore.GetRepository m.repo.Name).2
      currentHash = m.repo.WatchPaths :=
    changedFilesFor_never_seen _ _ _ _ _ (Or.inl (by rw [hget]))
  have hlen : (m.repo.WatchPaths).length > 0 := List.length_pos.2 hwatch
  have hcond : (!(stateStore.GetRepository m.repo.Name).2 ||
      decide ((stateStore.GetRepository m.repo.Name).1.CurrentHash ≠ currentHash)) = true := by
    rw [hget]
    rfl
  rw [checkRepository_resolved env clock m stateStore currentHash he hf hh, if_pos hcond,
    hfiles, if_pos hlen, Store.UpdateRepository_nil_map stateStore _ _ _ hnil]

/-- C23, where the code departs from the claim: when the state file is read and
`json.Unmarshal` accepts it without setting the repositories field, as it does for `{}`
and `null`, `NewStore` returns the store with the state as loaded, its repository map nil;
every following `UpdateRepository` panics, and so does the first check cycle of a
validated repository that reaches the store. -/
theorem NewStore_nil_map (codec : JsonCodec) (disk : Disk) (now : Time) (stateDir data : Str)
    (st : State) (hdir : disk.mkdirAllErr = none)
    (hread : disk.ReadFile (filepathJoin stateDir "state.json".toList) = .ok data)
    (hparse : codec.unmarshal data = .ok st) (hnil : st.Repositories = none) :
    ∃ store, NewStore codec disk now stateDir = .ok store ∧ store.state = st ∧
      store.state.Repositories = none ∧
      (∀ name r t, store.UpdateRepository name r t = none) ∧
      (∀ env clock (m : Monitor) currentHash,
        (NewGitHelper env).EnsureRepository m.repo = none →
        (NewGitHelper env).Fetch m.repo = none →
        (NewGitHelper env).GetHash m.repo.Branch = .ok currentHash →
        m.repo.WatchPaths ≠ [] →
        (m.checkRepository env clock store).outcome = .panicked) := by
  refine ⟨{ state := st, filePath := filepathJoin stateDir "state.json".toList,
            autoSave := true }, ?_, rfl, hnil, ?_, ?_⟩
  · simp only [NewStore, hdir, Store.Load, hread, hparse]
  · intro name r t
    exact Store.UpdateRepository_nil_map _ name r t hnil
  · intro env clock m currentHash he hf hh hwatch
    rw [checkRepository_nil_map env clock m _ currentHash he hf hh hwatch hnil]

/-! ## The scenarios of the wildcard, the record and the repository map -/

/-- Scenario of C22: the store holds the outcome of a successful action for "svc-a" at
commit `A`; the cycle that stores `B` leaves no trace of it. -/
theorem checkRepository_replaces_entry_witness :
    ((storeAt "A".toList).GetRepository svcA.Name).1.LastActionExecuted = 2 ∧
    ((storeAt "A".toList).GetRepository svcA.Name).1.LastActionStatus = "success".toList ∧
    ((NewMonitor svcA).checkRepository (envAtB "src/main.go\n".toList) clockAt10
      (storeAt "A".toList)).store ≠ storeAt "A".toList ∧
    ∃ currentHash,
      (NewGitHelper (envAtB "src/main.go\n".toList)).GetHash (NewMonitor svcA).repo.Branch =
        .ok currentHash ∧
      ((NewMonitor svcA).checkRepository (envAtB "src/main.go\n".toList) clockAt10
        (storeAt "A".toList)).store.GetRepository (NewMonitor svcA).repo.Name =
          ({ Name := (NewMonitor svcA).repo.Name, LastFetch := clockAt10.lastFetch,
             CurrentHash := currentHash }, true) ∧
      (((NewMonitor svcA).checkRepository (envAtB "src/main.go\n".toList) clockAt10
        (storeAt "A".toList)).store.GetRepository
          (NewMonitor svcA).repo.Name).1.LastActionExecuted = 0 ∧
      (((NewMonitor svcA).checkRepository (envAtB "src/main.go\n".toList) clockAt10
        (storeAt "A".toList)).store.GetRepository
          (NewMonitor svcA).repo.Name).1.LastActionStatus = [] ∧
      (((NewMonitor svcA).checkRepository (envAtB "src/main.go\n".toList) clockAt10
        (storeAt "A".toList)).store.GetRepository
          (NewMonitor svcA).repo.Name).1.LastError = [] :=
  ⟨by decide, by decide, by decide,
    checkRepository_replaces_entry (envAtB "src/main.go\n".toList) clockAt10 (NewMonitor svcA)
      (storeAt "A".toList) (by decide)⟩

/-- The failing input of C23: the state file holds `{}`. `NewStore` returns a store whose
map is nil, and the first check of "svc-a" panics. -/
theorem NewStore_nil_map_witness :
    diskEmptyObject.ReadFile (filepathJoin "/var/lib/cd-gun".toList "state.json".toList) =
      .ok "\x7b\x7d".toList ∧
    codecFieldsMissing.unmarshal "\x7b\x7d".toList = .ok {} ∧
    ∃ store, NewStore codecFieldsMissing diskEmptyObject 5 "/var/lib/cd-gun".toList =
        .ok store ∧
      store.state.Repositories = none ∧
      store.UpdateRepository "svc-a".toList { CurrentHash := "B".toList } 6 = none ∧
      ((NewMonitor svcA).checkRepository (envAtB []) clockAt10 store).outcome = .panicked := by
  obtain ⟨store, hnew, -, hnil, hupd, hcheck⟩ :=
    NewStore_nil_map codecFieldsMissing diskEmptyObject 5 "/var/lib/cd-gun".toList
      "\x7b\x7d".toList {} rfl rfl rfl rfl
  exact ⟨rfl, rfl, store, hnew, hnil, hupd _ _ _,
    hcheck (envAtB []) clockAt10 (NewMonitor svcA) "B".toList rfl rfl rfl (by decide)⟩

/-- Scenario of C24: the entry of "svc-a" is written over the one at commit `A`. -/
theorem UpdateRepository_GetRepository_witness :
    (storeAt "A".toList).state.Repositories.isSome = true ∧
    ∃ s', (storeAt "A".toList).state.UpdateRepository "svc-a".toList
        { CurrentHash := "B".toList } 7 = some s' ∧
      s'.GetRepository "svc-a".toList =
        ({ Name := "svc-a".toList, CurrentHash := "B".toList }, true) ∧
      (∀ k, k ≠ "svc-a".toList → s'.GetRepository k = (storeAt "A".toList).state.GetRepository k) ∧
      s'.Version = "1.0".toList := by
  obtain ⟨s', h1, h2, -, h4, h5, -, -⟩ :=
    UpdateRepository_GetRepository (storeAt "A".toList).state "svc-a".toList
      { CurrentHash := "B".toList } 7 rfl
  exact ⟨rfl, s', h1, h2, h4, h5⟩

end CdGun
